import Mathlib

/-!
# Deduper: pairwise contact scoring

A shallow embedding of `src/internal/service.go` (`scoreField`,
`levenshteinDistance`, and of `DeduperService.FindDuplicates` the field-count
check of `reader.ReadAll()`, the header check, the pair loop and the writer
loop) together with the properties stated about them.

Modelling conventions.

* A Go `string` holding valid UTF-8 text is the list of its code points
  (`GoString`).  `len` is the Go builtin: the number of BYTES of the UTF-8
  encoding.  `for i, c := range s` visits the code points of `s` in order, `i`
  being the byte offset at which `c` starts.  (`strings.ToLower` replaces every
  byte that is not part of valid UTF-8 by U+FFFD, so the strings that reach the
  comparison and `levenshteinDistance` are always of this kind.)
* Go slices of `int` are lists of naturals; an index outside the slice is a
  run-time panic, which the model reports as `Failure.indexOutOfRange`.
* `float64` weights and scores are exact rationals.
* `strings.ToLower` and `strings.TrimSpace` belong to the Go standard library;
  the two Unicode tables they consult (`unicode.ToLower`, `unicode.IsSpace`) are
  a parameter (`Unicode`) of the model.
* The writer at the end of `FindDuplicates` formats, splits and slices strings
  byte by byte; there a string is the list of its bytes (`Bytes`, `utf8`).
-/

namespace Deduper

/-- A Go string holding valid UTF-8 text, as the list of its code points. -/
abbrev GoString := List Char

/-- The ways in which a run can stop without a result. -/
inductive Failure where
  /-- "unexpected CSV format: expected 6 columns, found %d" -/
  | unexpectedFormat (found : Nat)
  /-- "invalid record format at row %d: expected 6 fields, found %d" -/
  | invalidRecord (row : Nat) (found : Nat)
  /-- "failed to read CSV: record on line %d: wrong number of fields", the error of
  `reader.ReadAll()`; `line` is the number of the record in the file, which is
  its line when every record takes one line and no line is blank. -/
  | wrongNumberOfFields (line : Nat)
  /-- A run-time panic: index out of range. -/
  | indexOutOfRange
  /-- A run-time panic: slice bounds out of range. -/
  | sliceBoundsOutOfRange
  deriving DecidableEq, Repr

deriving instance DecidableEq for Except

/-- The Unicode tables of the Go standard library used by normalisation:
`unicode.ToLower` and `unicode.IsSpace`. -/
structure Unicode where
  /-- The table `unicode.ToLower`: the lower-case form of a code point. -/
  ToLower : Char → Char
  /-- The table `unicode.IsSpace`: whether a code point is white space. -/
  IsSpace : Char → Bool

/-- The Unicode tables restricted to what the examples below need: letters `A` to `Z`
are lowered, every other code point is its own lower-case form; white space is
the `White_Space` property (`unicode.IsSpace`). -/
def basicUnicode : Unicode where
  ToLower := fun c => if 65 ≤ c.toNat ∧ c.toNat ≤ 90 then Char.ofNat (c.toNat + 32) else c
  IsSpace := fun c =>
    decide (c.toNat ∈ [0x09, 0x0A, 0x0B, 0x0C, 0x0D, 0x20, 0x85, 0xA0, 0x1680, 0x2028,
      0x2029, 0x202F, 0x205F, 0x3000]) || (decide (0x2000 ≤ c.toNat) && decide (c.toNat ≤ 0x200A))

/-- Number of bytes of the UTF-8 encoding of a code point (`utf8.RuneLen`): the
amount by which `range` advances the byte offset. -/
def runeLen (c : Char) : Nat :=
  if c.toNat < 0x80 then 1
  else if c.toNat < 0x800 then 2
  else if c.toNat < 0x10000 then 3
  else 4

/-- The Go builtin `len` on a string: its length in bytes. -/
def len : GoString → Nat
  | [] => 0
  | c :: s => runeLen c + len s

/-- The function `strings.ToLower`: every code point mapped to lower case. -/
def ToLower (u : Unicode) (s : GoString) : GoString :=
  s.map u.ToLower

/-- The function `strings.TrimSpace`: leading and trailing white space removed. -/
def TrimSpace (u : Unicode) (s : GoString) : GoString :=
  ((s.dropWhile u.IsSpace).reverse.dropWhile u.IsSpace).reverse

/-- The normalisation of `scoreField`:
`strings.TrimSpace(strings.ToLower(value))`. -/
def normalize (u : Unicode) (value : GoString) : GoString :=
  TrimSpace u (ToLower u value)

/-- The inner loop of `levenshteinDistance`,
`for j, c2 := range s2 { ... currRow[j+1] = min(...) }`:
the argument list is the part of `s2` still to visit and `j` the byte offset of
its first code point. -/
def innerLoop (c1 : Char) (prevRow : List Nat) :
    GoString → Nat → List Nat → Except Failure (List Nat)
  | [], _, currRow => .ok currRow
  | c2 :: rest, j, currRow =>
    let cost := if c1 ≠ c2 then 1 else 0
    match currRow[j]?, prevRow[j + 1]?, prevRow[j]? with
    | some insertion, some deletion, some substitution =>
      if j + 1 < currRow.length then
        innerLoop c1 prevRow rest (j + runeLen c2)
          (currRow.set (j + 1) (min (insertion + 1) (min (deletion + 1) (substitution + cost))))
      else .error .indexOutOfRange
    | _, _, _ => .error .indexOutOfRange

/-- The outer loop of `levenshteinDistance`,
`for i, c1 := range s1 { currRow := make([]int, len(s2)+1); currRow[0] = i + 1; ...; prevRow = currRow }`:
the argument list is the part of `s1` still to visit and `i` the byte offset of
its first code point. -/
def outerLoop (s2 : GoString) :
    GoString → Nat → List Nat → Except Failure (List Nat)
  | [], _, prevRow => .ok prevRow
  | c1 :: rest, i, prevRow =>
    match innerLoop c1 prevRow s2 0 ((List.replicate (len s2 + 1) 0).set 0 (i + 1)) with
    | .ok currRow => outerLoop s2 rest (i + runeLen c1) currRow
    | .error e => .error e

/-- The function `levenshteinDistance(s1, s2)`. -/
def levenshteinDistance (s1 s2 : GoString) : Except Failure Nat :=
  if s1 = s2 then .ok 0
  else if len s1 = 0 then .ok (len s2)
  else if len s2 = 0 then .ok (len s1)
  else
    match outerLoop s2 s1 0 (List.range (len s2 + 1)) with
    | .ok prevRow =>
      match prevRow[len s2]? with
      | some d => .ok d
      | none => .error .indexOutOfRange
    | .error e => .error e

/-- The function `scoreField(recordValue, inputValue, weight)`. -/
def scoreField (u : Unicode) (recordValue inputValue : GoString) (weight : ℚ) :
    Except Failure ℚ :=
  let recordValue := TrimSpace u (ToLower u recordValue)
  let inputValue := TrimSpace u (ToLower u inputValue)
  if inputValue = recordValue then .ok weight
  else
    match levenshteinDistance recordValue inputValue with
    | .ok distance =>
      let similarity : ℚ := 1 - (distance : ℚ) / ((max (len recordValue) (len inputValue) : Nat) : ℚ)
      .ok (similarity * weight)
    | .error e => .error e

/-- One entry of `result`: the three values that
`fmt.Sprintf("ContactID: %s, Source ContactID: %s, Match Score: %.2f", ...)`
is given. -/
structure MatchResult where
  /-- The value `contactID`, column 0 of the first row of the pair. -/
  contactID : GoString
  /-- The value `sourceContactID`, column 0 of the second row of the pair. -/
  sourceContactID : GoString
  /-- The value `percentage`, the total score of the pair. -/
  percentage : ℚ
  deriving DecidableEq

/-- The inner loop of `FindDuplicates`,
`for j := i + 1; j < len(records)-1; j++ { sourceRecord := records[j+1]; ... }`,
run over the values of `j` still to visit, for the record whose six fields are
given. -/
def sourceLoop (u : Unicode) (records : List (List GoString))
    (contactID name lname email postalZip address : GoString) :
    List Nat → List MatchResult → Except Failure (List MatchResult)
  | [], result => .ok result
  | j :: js, result =>
    match records[j + 1]? with
    | none => .error .indexOutOfRange
    | some sourceRecord =>
      match sourceRecord with
      | [sourceContactID, sourceName, sourceLname, sourceEmail, sourcePostalZip,
          sourceAddress] => do
        let totalScore : ℚ := 0
        let totalScore := totalScore + (← scoreField u name sourceName 5)
        let totalScore := totalScore + (← scoreField u lname sourceLname 5)
        let totalScore := totalScore + (← scoreField u email sourceEmail 20)
        let totalScore := totalScore + (← scoreField u postalZip sourcePostalZip 30)
        let totalScore := totalScore + (← scoreField u address sourceAddress 40)
        let percentage := totalScore
        sourceLoop u records contactID name lname email postalZip address js
          (result ++ [⟨contactID, sourceContactID, percentage⟩])
      | _ => .error (.invalidRecord (j + 1) sourceRecord.length)

/-- The outer loop of `FindDuplicates`, `for i, record := range records[1:] { ... }`:
the argument list is the part of `records[1:]` still to visit and `i` the index
of its first row. -/
def recordLoop (u : Unicode) (records : List (List GoString)) :
    List (List GoString) → Nat → List MatchResult → Except Failure (List MatchResult)
  | [], _, result => .ok result
  | record :: rest, i, result =>
    match record with
    | [contactID, name, lname, email, postalZip, address] =>
      match sourceLoop u records contactID name lname email postalZip address
          (List.range' (i + 1) (records.length - 1 - (i + 1))) result with
      | .ok result => recordLoop u records rest (i + 1) result
      | .error e => .error e
    | _ => .error (.invalidRecord (i + 1) record.length)

/-- The field-count check of `encoding/csv` inside `reader.ReadAll()`, on the
records still to read: `fieldsPerRecord` is `Reader.FieldsPerRecord`, which
`csv.NewReader` leaves at 0, so that the first record sets it and every later
record must have that many fields; `line` numbers the record being read. -/
def readLoop : List (List GoString) → Nat → Nat → Except Failure Unit
  | [], _, _ => .ok ()
  | record :: rest, fieldsPerRecord, line =>
    if 0 < fieldsPerRecord then
      if record.length ≠ fieldsPerRecord then .error (.wrongNumberOfFields line)
      else readLoop rest fieldsPerRecord (line + 1)
    else readLoop rest record.length (line + 1)

/-- The call `reader.ReadAll()` on the records of the file (header first): all the
records, or the error of the first record whose number of fields is not that
of the first record. -/
def ReadAll (file : List (List GoString)) : Except Failure (List (List GoString)) :=
  match readLoop file 0 1 with
  | .ok _ => .ok file
  | .error e => .error e

/-- The part of `FindDuplicates` that follows `reader.ReadAll()`: the header check
and the pair loop, from `records` to the list `result`. -/
def checkAndScore (u : Unicode) (records : List (List GoString)) :
    Except Failure (List MatchResult) :=
  match records with
  | [] => .error .indexOutOfRange
  | headers :: _ =>
    if headers.length ≠ 6 then .error (.unexpectedFormat headers.length)
    else recordLoop u records records.tail 0 []

/-- The method `DeduperService.FindDuplicates` from the records of the CSV file
(header first) to the list `result` it accumulates: `reader.ReadAll()`, the
header check and the pair loop. -/
def FindDuplicates (u : Unicode) (file : List (List GoString)) :
    Except Failure (List MatchResult) :=
  match ReadAll file with
  | .ok records => checkAndScore u records
  | .error e => .error e

/-! ## Vocabulary of the statements -/

/-- Every cell of a row is at most the larger of the row label and the cell index. -/
def RowBound (label : Nat) (row : List Nat) : Prop :=
  ∀ idx v, row[idx]? = some v → v ≤ max label idx

/-- The value that `scoreField` returns. -/
def scoreValue (u : Unicode) (recordValue inputValue : GoString) (weight : ℚ) : ℚ :=
  match scoreField u recordValue inputValue weight with
  | .ok v => v
  | .error _ => 0

/-- The input has a six-column header and every data row has six fields. -/
def WellFormed (records : List (List GoString)) : Prop :=
  (∃ headers data, records = headers :: data ∧ headers.length = 6) ∧
    ∀ row ∈ records.tail, row.length = 6

/-- Data row `i` of the input: `records[i+1]`. -/
def dataRow (records : List (List GoString)) (i : Nat) : List GoString :=
  records.getD (i + 1) []

/-- Column `k` of a row. -/
def column (row : List GoString) (k : Nat) : GoString :=
  row.getD k []

/-- The enumeration of the specification: the index pairs `(i, j)` with
`0 <= i < j < N`, outer index ascending, inner index ascending. -/
def indexPairs (N : Nat) : List (Nat × Nat) :=
  (List.range N).flatMap fun i => (List.range' (i + 1) (N - (i + 1))).map fun j => (i, j)

/-- The entry of `result` for a pair of rows. -/
def pairResult (u : Unicode) (record sourceRecord : List GoString) : MatchResult where
  contactID := column record 0
  sourceContactID := column sourceRecord 0
  percentage :=
    0 + scoreValue u (column record 1) (column sourceRecord 1) 5
      + scoreValue u (column record 2) (column sourceRecord 2) 5
      + scoreValue u (column record 3) (column sourceRecord 3) 20
      + scoreValue u (column record 4) (column sourceRecord 4) 30
      + scoreValue u (column record 5) (column sourceRecord 5) 40

/-- The rows of `mockCSVData` in `src/internal/tests/service_ut_test.go`. -/
def mockCSVData : List (List GoString) :=
  [ ["ContactID".toList, "Name".toList, "Lname".toList, "Email".toList, "PostalZip".toList,
      "Address".toList],
    ["1001".toList, "John".toList, "Doe".toList, "john.doe@example.com".toList,
      "12345".toList, "123 Main St".toList],
    ["1002".toList, "Jane".toList, "Doe".toList, "jane.doe@example.com".toList,
      "12346".toList, "124 Main St".toList],
    ["1003".toList, "John".toList, "Doe".toList, "john.doe@example.com".toList,
      "12345".toList, "123 Main St".toList] ]

/-- Two contacts that match on the address only: every other field differs. -/
def addressOnlyData : List (List GoString) :=
  [ ["ContactID".toList, "Name".toList, "Lname".toList, "Email".toList, "PostalZip".toList,
      "Address".toList],
    ["1001".toList, "John".toList, "Doe".toList, "john.doe@example.com".toList,
      "12345".toList, "123 Main St".toList],
    ["1002".toList, "Jane".toList, "Smith".toList, "jane.smith@example.net".toList,
      "54321".toList, "123 Main St".toList] ]

/-- The rows of `mockCSVData` with the second contact cut to five fields and the
third to three. -/
def shortRowData : List (List GoString) :=
  [ ["ContactID".toList, "Name".toList, "Lname".toList, "Email".toList, "PostalZip".toList,
      "Address".toList],
    ["1001".toList, "John".toList, "Doe".toList, "john.doe@example.com".toList,
      "12345".toList, "123 Main St".toList],
    ["1002".toList, "Jane".toList, "Doe".toList, "jane.doe@example.com".toList,
      "12346".toList],
    ["1003".toList, "John".toList, "Doe".toList] ]

/-- One step of the standard recursion on the first string: the distances from
`a :: s` to every string, from `n`, the length of `s`, and `prev`, the distances
from `s`. -/
def levCons (a : Char) (n : Nat) (prev : List Char → Nat) : List Char → Nat
  | [] => n + 1
  | b :: t =>
    min (prev (b :: t) + 1) (min (levCons a n prev t + 1) (prev t + if a = b then 0 else 1))

/-- The Levenshtein distance of the specification, by the standard recursion: the
distance from or to the empty string is the length of the other string, and the
distance from `a :: s` to `b :: t` is the least of a deletion (`lev s (b :: t) + 1`),
an insertion (`lev (a :: s) t + 1`) and a substitution (`lev s t`, plus 1 unless
`a = b`); see `lev_nil_left`, `lev_nil_right` and `lev_cons_cons`. -/
def lev : List Char → List Char → Nat
  | [], t => t.length
  | a :: s, t => levCons a s.length (lev s) t

/-- The row of the distance table for the prefix `p` of the first string: cell `j`
holds the distance from `p` to the first `j` characters of `s2`. -/
def rowOf (p s2 : List Char) : List Nat :=
  (List.range (s2.length + 1)).map fun j => lev p (s2.take j)

/-! ## The writer -/

/-- A Go string as the sequence of its bytes: what `fmt.Sprintf` with `%s`,
`strings.Split` and the slice `s[n:]` work on. -/
abbrev Bytes := List Nat

/-- The UTF-8 encoding of a code point (`utf8.AppendRune`). -/
def utf8EncodeRune (c : Char) : Bytes :=
  if c.toNat < 0x80 then [c.toNat]
  else if c.toNat < 0x800 then [0xC0 + c.toNat / 0x40, 0x80 + c.toNat % 0x40]
  else if c.toNat < 0x10000 then
    [0xE0 + c.toNat / 0x1000, 0x80 + c.toNat / 0x40 % 0x40, 0x80 + c.toNat % 0x40]
  else
    [0xF0 + c.toNat / 0x40000, 0x80 + c.toNat / 0x1000 % 0x40, 0x80 + c.toNat / 0x40 % 0x40,
      0x80 + c.toNat % 0x40]

/-- The bytes of a string of valid UTF-8 text. -/
def utf8 (s : GoString) : Bytes :=
  s.flatMap utf8EncodeRune

/-- The call
`fmt.Sprintf("ContactID: %s, Source ContactID: %s, Match Score: %.2f", contactID, sourceContactID, percentage)`,
with the score given as the text that `%.2f` prints. -/
def Sprintf (contactID sourceContactID percentage : Bytes) : Bytes :=
  utf8 "ContactID: ".toList ++ contactID ++ utf8 ", Source ContactID: ".toList ++
    sourceContactID ++ utf8 ", Match Score: ".toList ++ percentage

/-- The scan of `strings.Split(s, ", ")` from the left: `part` is the part read so
far, cut at every comma followed by a space. -/
def splitAux : Bytes → Bytes → List Bytes
  | [], part => [part]
  | [b], part => [part ++ [b]]
  | b :: c :: rest, part =>
    if b = 44 ∧ c = 32 then part :: splitAux rest []
    else splitAux (c :: rest) (part ++ [b])

/-- The call `strings.Split(res, ", ")`. -/
def Split (s : Bytes) : List Bytes :=
  splitAux s []

/-- The slice `s[n:]`: a panic when `n` exceeds the length of `s`. -/
def sliceFrom (n : Nat) (s : Bytes) : Except Failure Bytes :=
  if n ≤ s.length then .ok (s.drop n) else .error .sliceBoundsOutOfRange

/-- The element `parts[k]`: a panic when `parts` has no such element. -/
def index (parts : List Bytes) (k : Nat) : Except Failure Bytes :=
  match parts[k]? with
  | some part => .ok part
  | none => .error .indexOutOfRange

/-- The row that the writer loop hands to `writer.Write` for one entry `res` of
`result`: `parts := strings.Split(res, ", ")`, then `parts[0][len("ContactID: "):]`,
`parts[1][len("Source ContactID: "):]` and `parts[2][len("Match Score: "):]`. -/
def outputRow (res : Bytes) : Except Failure (List Bytes) := do
  let parts := Split res
  let contactID ← (← index parts 0) |> sliceFrom (utf8 "ContactID: ".toList).length
  let sourceContactID ← (← index parts 1) |> sliceFrom (utf8 "Source ContactID: ".toList).length
  let percentage ← (← index parts 2) |> sliceFrom (utf8 "Match Score: ".toList).length
  pure [contactID, sourceContactID, percentage]

/-- Whether a string contains the separator: a comma followed by a space. -/
def hasSep : Bytes → Bool
  | [] => false
  | [_] => false
  | b :: c :: rest => (b == 44 && c == 32) || hasSep (c :: rest)

/-- The writer loop `for _, res := range result { ... }`: the rows written, one for
every entry of `result`, in order. -/
def writeRows : List Bytes → Except Failure (List (List Bytes))
  | [] => .ok []
  | res :: rest => do
    let row ← outputRow res
    let rows ← writeRows rest
    pure (row :: rows)

/-- The rows handed to the csv writer: the header row, then one row per entry of
`result`. -/
def writeResults (result : List Bytes) : Except Failure (List (List Bytes)) := do
  let rows ← writeRows result
  pure ([utf8 "ContactID".toList, utf8 "Source ContactID".toList, utf8 "Match Score".toList]
    :: rows)

/-- The entry appended to `result` for one pair: `Sprintf` of its two ids and of
its score as printed by `%.2f` (`format2f`, from the standard library). -/
def resultLine (format2f : ℚ → Bytes) (r : MatchResult) : Bytes :=
  Sprintf (utf8 r.contactID) (utf8 r.sourceContactID) (format2f r.percentage)

/-- Two contacts of `mockCSVData`, the first with an id that holds a comma followed
by a space (the quoted CSV field `"1001, A"`). -/
def commaIdData : List (List GoString) :=
  [ ["ContactID".toList, "Name".toList, "Lname".toList, "Email".toList, "PostalZip".toList,
      "Address".toList],
    ["1001, A".toList, "John".toList, "Doe".toList, "john.doe@example.com".toList,
      "12345".toList, "123 Main St".toList],
    ["1002".toList, "Jane".toList, "Doe".toList, "jane.doe@example.com".toList,
      "12346".toList, "124 Main St".toList] ]

/-! ## The scorer: bounds and totality -/

theorem runeLen_pos (c : Char) : 0 < runeLen c := by
  unfold runeLen
  split_ifs <;> omega

theorem len_eq_zero_iff (s : GoString) : len s = 0 ↔ s = [] := by
  cases s with
  | nil => simp [len]
  | cons c t =>
    have := runeLen_pos c
    simp [len]
    omega

theorem len_append (s t : GoString) : len (s ++ t) = len s + len t := by
  induction s with
  | nil => simp [len]
  | cons c s ih => simp [len, ih, Nat.add_assoc]

theorem RowBound.mono {a b : Nat} {row : List Nat} (h : RowBound a row) (hab : a ≤ b) :
    RowBound b row := by
  intro idx v hv
  have := h idx v hv
  omega

theorem rowBound_range (n : Nat) : RowBound 0 (List.range n) := by
  intro idx v hv
  obtain ⟨h, hv⟩ := List.getElem?_eq_some.1 hv
  rw [List.getElem_range] at hv
  omega

theorem rowBound_fresh (n i : Nat) : RowBound (i + 1) ((List.replicate n 0).set 0 (i + 1)) := by
  intro idx v hv
  by_cases h0 : idx = 0
  · subst h0
    obtain ⟨h, hv⟩ := List.getElem?_eq_some.1 hv
    simp only [List.getElem_set_self] at hv
    omega
  · rw [List.getElem?_set_ne (by omega)] at hv
    obtain ⟨h, hv⟩ := List.getElem?_eq_some.1 hv
    simp at hv
    omega

theorem innerLoop_ok (c1 : Char) (prevRow : List Nat) (L i : Nat)
    (hprev : prevRow.length = L + 1) (hpb : RowBound i prevRow) :
    ∀ (rest : GoString) (j : Nat) (currRow : List Nat),
      currRow.length = L + 1 → j + len rest ≤ L → RowBound (i + 1) currRow →
      ∃ row, innerLoop c1 prevRow rest j currRow = .ok row ∧ row.length = L + 1 ∧
        RowBound (i + 1) row := by
  intro rest
  induction rest with
  | nil =>
    intro j currRow hlen _ hb
    exact ⟨currRow, rfl, hlen, hb⟩
  | cons c2 rest ih =>
    intro j currRow hlen hj hb
    have hpos := runeLen_pos c2
    simp only [len] at hj
    have hj1 : j < currRow.length := by omega
    have hj2 : j + 1 < prevRow.length := by omega
    have hj3 : j < prevRow.length := by omega
    have hj4 : j + 1 < currRow.length := by omega
    have hsub : prevRow[j] ≤ max i j := hpb j _ (List.getElem?_eq_getElem hj3)
    simp only [innerLoop, List.getElem?_eq_getElem hj1, List.getElem?_eq_getElem hj2,
      List.getElem?_eq_getElem hj3, if_pos hj4]
    apply ih
    · simp [hlen]
    · omega
    · intro idx v hv
      by_cases h1 : j + 1 = idx
      · subst h1
        rw [List.getElem?_set_self hj4] at hv
        have hcost : (if c1 ≠ c2 then 1 else 0) ≤ 1 := by split_ifs <;> omega
        have h3 : min (currRow[j] + 1) (min (prevRow[j + 1] + 1)
            (prevRow[j] + if c1 ≠ c2 then 1 else 0)) ≤ prevRow[j] + 1 := by
          omega
        cases hv
        omega
      · rw [List.getElem?_set_ne h1] at hv
        exact hb idx v hv

theorem outerLoop_ok (s2 : GoString) :
    ∀ (rest : GoString) (i : Nat) (prevRow : List Nat),
      prevRow.length = len s2 + 1 → RowBound i prevRow →
      ∃ row, outerLoop s2 rest i prevRow = .ok row ∧ row.length = len s2 + 1 ∧
        RowBound (i + len rest) row := by
  intro rest
  induction rest with
  | nil =>
    intro i prevRow hlen hb
    exact ⟨prevRow, rfl, hlen, by simpa [len] using hb⟩
  | cons c1 rest ih =>
    intro i prevRow hlen hb
    have hpos := runeLen_pos c1
    obtain ⟨currRow, hrun, hclen, hcb⟩ := innerLoop_ok c1 prevRow (len s2) i hlen hb s2 0
      ((List.replicate (len s2 + 1) 0).set 0 (i + 1)) (by simp) (by omega)
      (rowBound_fresh _ _)
    simp only [outerLoop, hrun]
    obtain ⟨row, hrow, hrlen, hrb⟩ := ih (i + runeLen c1) currRow hclen
      (hcb.mono (by omega))
    exact ⟨row, hrow, hrlen, by simpa [len, Nat.add_assoc] using hrb⟩

/-- The function `levenshteinDistance` returns on every pair of strings, and what it
returns is at most the larger of the two byte lengths. -/
theorem levenshteinDistance_ok (s1 s2 : GoString) :
    ∃ d, levenshteinDistance s1 s2 = .ok d ∧ d ≤ max (len s1) (len s2) := by
  unfold levenshteinDistance
  split_ifs with h1 h2 h3
  · exact ⟨0, rfl, by omega⟩
  · exact ⟨len s2, rfl, by omega⟩
  · exact ⟨len s1, rfl, by omega⟩
  · obtain ⟨row, hrow, hlen, hb⟩ := outerLoop_ok s2 s1 0 (List.range (len s2 + 1))
      (by simp) (rowBound_range _)
    have hidx : len s2 < row.length := by omega
    simp only [hrow, List.getElem?_eq_getElem hidx]
    refine ⟨row[len s2], rfl, ?_⟩
    have := hb (len s2) _ (List.getElem?_eq_getElem hidx)
    omega

/-- A run of the two-row table on ASCII text: "kitten" against "sitting". -/
theorem levenshteinDistance_kitten_sitting :
    levenshteinDistance "kitten".toList "sitting".toList = .ok 3 := by decide

/-- Every run of `scoreField` returns. -/
theorem scoreField_ok (u : Unicode) (a b : GoString) (w : ℚ) :
    scoreField u a b w = .ok (scoreValue u a b w) := by
  have key : ∃ v, scoreField u a b w = .ok v := by
    unfold scoreField
    simp only
    split_ifs with h
    · exact ⟨w, rfl⟩
    · obtain ⟨d, hd, _⟩ := levenshteinDistance_ok (TrimSpace u (ToLower u a))
        (TrimSpace u (ToLower u b))
      rw [hd]
      exact ⟨_, rfl⟩
  obtain ⟨v, hv⟩ := key
  simp [scoreValue, hv]

theorem length_six {α : Type} (l : List α) (h : l.length = 6) :
    ∃ a b c d e f, l = [a, b, c, d, e, f] := by
  match l, h with
  | [a, b, c, d, e, f], _ => exact ⟨a, b, c, d, e, f, rfl⟩

theorem sourceLoop_ok (u : Unicode) (records : List (List GoString))
    (hrows : ∀ row ∈ records.tail, row.length = 6)
    (contactID name lname email postalZip address : GoString) :
    ∀ (js : List Nat) (result : List MatchResult), (∀ j ∈ js, j + 1 < records.length) →
      sourceLoop u records contactID name lname email postalZip address js result =
        .ok (result ++ js.map fun j =>
          pairResult u [contactID, name, lname, email, postalZip, address]
            (dataRow records j)) := by
  intro js
  induction js with
  | nil => intro result _; simp [sourceLoop]
  | cons j js ih =>
    intro result hjs
    have hj : j + 1 < records.length := hjs j (by simp)
    have hmem : records[j + 1] ∈ records.tail := by
      cases records with
      | nil => simp at hj
      | cons h t => simp
    obtain ⟨a, b, c, d, e, f, hrow⟩ := length_six _ (hrows _ hmem)
    have hget : records[j + 1]? = some [a, b, c, d, e, f] := by
      rw [List.getElem?_eq_getElem hj, hrow]
    have hdata : dataRow records j = [a, b, c, d, e, f] := by
      simp [dataRow, List.getD, hget]
    rw [sourceLoop, hget]
    simp only [scoreField_ok, bind, Except.bind, pure, Except.pure]
    rw [ih _ (fun k hk => hjs k (by simp [hk]))]
    simp [pairResult, column, hdata]

theorem recordLoop_ok (u : Unicode) (records : List (List GoString))
    (hrows : ∀ row ∈ records.tail, row.length = 6) :
    ∀ (rest : List (List GoString)) (i : Nat) (result : List MatchResult),
      records.drop (i + 1) = rest →
      recordLoop u records rest i result =
        .ok (result ++ (List.range' i rest.length).flatMap fun i =>
          (List.range' (i + 1) (records.length - 1 - (i + 1))).map fun j =>
            pairResult u (dataRow records i) (dataRow records j)) := by
  intro rest
  induction rest with
  | nil => intro i result _; simp [recordLoop]
  | cons record rest ih =>
    intro i result hdrop
    have hget : records[i + 1]? = some record := by
      have := congrArg List.head? hdrop
      simpa [List.head?_drop] using this
    have hmem : record ∈ records.tail := by
      have h1 : record ∈ records.drop (i + 1) := by rw [hdrop]; simp
      rw [← List.drop_one]
      exact (List.drop_sublist_drop_left records (Nat.le_add_left 1 i)).subset h1
    obtain ⟨a, b, c, d, e, f, hrow⟩ := length_six _ (hrows _ hmem)
    have hdata : dataRow records i = [a, b, c, d, e, f] := by
      simp [dataRow, List.getD, hget, hrow]
    have hnext : records.drop (i + 1 + 1) = rest := by
      have := congrArg List.tail hdrop
      simpa [List.tail_drop] using this
    subst hrow
    rw [recordLoop, sourceLoop_ok u records hrows]
    · simp only
      rw [ih (i + 1) _ hnext]
      simp [List.range'_succ, hdata, List.append_assoc]
    · intro j hj
      rw [List.mem_range'_1] at hj
      omega

theorem readLoop_ok (k : Nat) : ∀ (rows : List (List GoString)) (fieldsPerRecord line : Nat),
    (∀ row ∈ rows, row.length = k) → (fieldsPerRecord = 0 ∨ fieldsPerRecord = k) →
    readLoop rows fieldsPerRecord line = .ok () := by
  intro rows
  induction rows with
  | nil => intro _ _ _ _; rfl
  | cons r rows ih =>
    intro f line hrows hf
    have hr : r.length = k := hrows r (by simp)
    have hrest : ∀ row ∈ rows, row.length = k := fun x hx => hrows x (by simp [hx])
    rw [readLoop]
    by_cases hpos : 0 < f
    · have hfk : f = k := by omega
      rw [if_pos hpos, if_neg (by rw [hr, hfk]; exact fun h => h rfl)]
      exact ih f _ hrest hf
    · rw [if_neg hpos, hr]
      exact ih k _ hrest (Or.inr rfl)

/-- The reader accepts a file whose records all have the same number of fields. -/
theorem ReadAll_ok (file : List (List GoString)) (k : Nat)
    (h : ∀ row ∈ file, row.length = k) : ReadAll file = .ok file := by
  simp only [ReadAll, readLoop_ok k file 0 1 h (Or.inl rfl)]

theorem ReadAll_wellFormed (records : List (List GoString)) (h : WellFormed records) :
    ReadAll records = .ok records := by
  obtain ⟨⟨headers, data, hrec, hlen⟩, hrows⟩ := h
  subst hrec
  apply ReadAll_ok _ 6
  intro row hrow
  rcases List.mem_cons.1 hrow with rfl | hmem
  · exact hlen
  · exact hrows row (by simpa using hmem)

/-- On a well-formed input the header check passes and `result` is the enumeration
`indexPairs` with every index pair replaced by the entry for its two rows. -/
theorem checkAndScore_ok (u : Unicode) (records : List (List GoString))
    (h : WellFormed records) :
    checkAndScore u records = .ok ((indexPairs (records.length - 1)).map fun p =>
      pairResult u (dataRow records p.1) (dataRow records p.2)) := by
  obtain ⟨⟨headers, data, hrec, hlen⟩, hrows⟩ := h
  subst hrec
  simp only [checkAndScore, hlen, ne_eq, not_true_eq_false, if_false]
  rw [recordLoop_ok u _ hrows _ 0 [] (by simp)]
  simp [indexPairs, List.map_flatMap, List.range_eq_range']
  rfl

/-- On a well-formed input the run succeeds and `result` is the enumeration
`indexPairs` with every index pair replaced by the entry for its two rows. -/
theorem FindDuplicates_ok (u : Unicode) (records : List (List GoString))
    (h : WellFormed records) :
    FindDuplicates u records = .ok ((indexPairs (records.length - 1)).map fun p =>
      pairResult u (dataRow records p.1) (dataRow records p.2)) := by
  simp only [FindDuplicates, ReadAll_wellFormed records h, checkAndScore_ok u records h]

/-- The value of `scoreField` on two values whose normalised forms differ, from
the distance and the byte lengths of the normalised forms. -/
theorem scoreField_eq (u : Unicode) (a b na nb : GoString) (w : ℚ) (d m : Nat)
    (ha : normalize u a = na) (hb : normalize u b = nb) (hne : nb ≠ na)
    (hd : levenshteinDistance na nb = .ok d) (hm : max (len na) (len nb) = m) :
    scoreField u a b w = .ok ((1 - (d : ℚ) / (m : ℚ)) * w) := by
  subst ha hb hm
  simp only [normalize] at hne hd
  simp only [scoreField, if_neg hne, hd]
  rfl

theorem len_max_pos {na nb : GoString} (hne : nb ≠ na) : 0 < max (len na) (len nb) := by
  rcases Nat.eq_zero_or_pos (len na) with h1 | h1
  · rcases Nat.eq_zero_or_pos (len nb) with h2 | h2
    · exact absurd (((len_eq_zero_iff nb).1 h2).trans ((len_eq_zero_iff na).1 h1).symm) hne
    · omega
  · omega

/-- Similarity `1 - d / m` lies between 0 and 1 when `d ≤ m`. -/
theorem similarity_range (d m : Nat) (h : d ≤ m) :
    0 ≤ 1 - (d : ℚ) / (m : ℚ) ∧ 1 - (d : ℚ) / (m : ℚ) ≤ 1 := by
  have h1 : (d : ℚ) / (m : ℚ) ≤ 1 := by
    apply div_le_one_of_le₀
    · exact_mod_cast h
    · positivity
  have h2 : 0 ≤ (d : ℚ) / (m : ℚ) := by positivity
  constructor <;> linarith

theorem scoreValue_range (u : Unicode) (a b : GoString) (w : ℚ) (hw : 0 ≤ w) :
    0 ≤ scoreValue u a b w ∧ scoreValue u a b w ≤ w := by
  have hok := scoreField_ok u a b w
  by_cases hne : normalize u b = normalize u a
  · have : scoreField u a b w = .ok w := by
      simp only [normalize] at hne
      simp only [scoreField, if_pos hne]
    rw [this] at hok
    injection hok with hok
    rw [← hok]
    exact ⟨hw, le_refl _⟩
  · obtain ⟨d, hd, hle⟩ := levenshteinDistance_ok (normalize u a) (normalize u b)
    rw [scoreField_eq u a b _ _ w d _ rfl rfl hne hd rfl] at hok
    injection hok with hok
    rw [← hok]
    obtain ⟨h0, h1⟩ := similarity_range d _ hle
    constructor
    · exact mul_nonneg h0 hw
    · calc (1 - (d : ℚ) / _) * w ≤ 1 * w := mul_le_mul_of_nonneg_right h1 hw
        _ = w := one_mul w

/-! ## Claims about the field scorer -/

/-- C1. Exact-match saturation: when the normalised forms of `s` and `t` are
equal, `scoreField(s, t, w)` returns exactly `w`, for every weight `w`. -/
theorem scoreField_exact_match (u : Unicode) (s t : GoString) (w : ℚ)
    (h : normalize u s = normalize u t) : scoreField u s t w = .ok w := by
  simp only [normalize] at h
  simp only [scoreField, if_pos h.symm]

theorem scoreField_exact_match_witness :
    normalize basicUnicode " John Doe".toList = normalize basicUnicode "john DOE\t ".toList ∧
      scoreField basicUnicode " John Doe".toList "john DOE\t ".toList 20 = .ok 20 :=
  ⟨by decide, scoreField_exact_match basicUnicode _ _ 20 (by decide)⟩

/-- C2. Symmetry fails on multi-byte text: `scoreField("a", "é", 20)` is 20 (the
distance read from the row is 0) while `scoreField("é", "a", 20)` is 10. -/
theorem scoreField_asymmetric_at_multibyte :
    scoreField basicUnicode ['a'] ['é'] 20 = .ok 20 ∧
      scoreField basicUnicode ['é'] ['a'] 20 = .ok 10 ∧
      levenshteinDistance ['a'] ['é'] = .ok 0 ∧ levenshteinDistance ['é'] ['a'] = .ok 1 := by
  refine ⟨?_, ?_, by decide, by decide⟩
  · rw [scoreField_eq basicUnicode ['a'] ['é'] ['a'] ['é'] 20 0 2 (by decide) (by decide)
      (by decide) (by decide) (by decide)]
    norm_num
  · rw [scoreField_eq basicUnicode ['é'] ['a'] ['é'] ['a'] 20 1 2 (by decide) (by decide)
      (by decide) (by decide) (by decide)]
    norm_num

/-- C3. Field score range: for every weight `w ≥ 0`, `scoreField(a, b, w)` returns a
value in `[0, w]`; the distance computed on the normalised strings is at most
the longer byte length, so the similarity lies in `[0, 1]`. -/
theorem scoreField_range (u : Unicode) (a b : GoString) (w : ℚ) (hw : 0 ≤ w) :
    (∃ v, scoreField u a b w = .ok v ∧ 0 ≤ v ∧ v ≤ w) ∧
      ∃ d, levenshteinDistance (normalize u a) (normalize u b) = .ok d ∧
        d ≤ max (len (normalize u a)) (len (normalize u b)) ∧
        0 ≤ 1 - (d : ℚ) / ((max (len (normalize u a)) (len (normalize u b)) : Nat) : ℚ) ∧
        1 - (d : ℚ) / ((max (len (normalize u a)) (len (normalize u b)) : Nat) : ℚ) ≤ 1 := by
  refine ⟨⟨_, scoreField_ok u a b w, scoreValue_range u a b w hw⟩, ?_⟩
  obtain ⟨d, hd, hle⟩ := levenshteinDistance_ok (normalize u a) (normalize u b)
  exact ⟨d, hd, hle, similarity_range d _ hle⟩

theorem scoreField_range_witness :
    (0 : ℚ) ≤ 20 ∧
      ((∃ v, scoreField basicUnicode "Jane".toList "John".toList 20 = .ok v ∧ 0 ≤ v ∧ v ≤ 20) ∧
        ∃ d, levenshteinDistance (normalize basicUnicode "Jane".toList)
            (normalize basicUnicode "John".toList) = .ok d ∧
          d ≤ max (len (normalize basicUnicode "Jane".toList))
            (len (normalize basicUnicode "John".toList)) ∧
          0 ≤ 1 - (d : ℚ) / ((max (len (normalize basicUnicode "Jane".toList))
            (len (normalize basicUnicode "John".toList)) : Nat) : ℚ) ∧
          1 - (d : ℚ) / ((max (len (normalize basicUnicode "Jane".toList))
            (len (normalize basicUnicode "John".toList)) : Nat) : ℚ) ≤ 1) :=
  ⟨by norm_num, scoreField_range basicUnicode _ _ 20 (by norm_num)⟩

theorem normalize_nil (u : Unicode) : normalize u [] = [] := by
  simp [normalize, TrimSpace, ToLower]

/-- C10, the claim as stated, at a string of one blank: the string is not empty,
yet `scoreField("", " ", 5)` and `scoreField(" ", "", 5)` return 5, not 0. -/
theorem scoreField_empty_vs_blank :
    ([' '] : GoString) ≠ [] ∧ scoreField basicUnicode [] [' '] 5 = .ok 5 ∧
      scoreField basicUnicode [' '] [] 5 = .ok 5 ∧
      scoreField basicUnicode [] [' '] 5 ≠ .ok 0 := by
  have h1 : scoreField basicUnicode [] [' '] 5 = .ok 5 :=
    ((scoreField_ok basicUnicode [] [' '] 5).trans (by
      simp only [scoreValue, scoreField]
      rw [if_pos (by decide)]))
  have h2 : scoreField basicUnicode [' '] [] 5 = .ok 5 :=
    ((scoreField_ok basicUnicode [' '] [] 5).trans (by
      simp only [scoreValue, scoreField]
      rw [if_pos (by decide)]))
  refine ⟨by decide, h1, h2, ?_⟩
  rw [h1]
  intro h
  injection h with h
  norm_num at h

/-- C10, amended. Empty versus non-empty: for every string `s` whose normalised
form is not empty and every weight `w`, `scoreField("", s, w)` and
`scoreField(s, "", w)` return 0; the distance is the byte length of the
normalised `s`. -/
theorem scoreField_empty_vs_nonempty (u : Unicode) (s : GoString) (w : ℚ)
    (h : normalize u s ≠ []) :
    scoreField u [] s w = .ok 0 ∧ scoreField u s [] w = .ok 0 ∧
      levenshteinDistance [] (normalize u s) = .ok (len (normalize u s)) ∧
      levenshteinDistance (normalize u s) [] = .ok (len (normalize u s)) := by
  have hlen : len (normalize u s) ≠ 0 := fun h0 => h ((len_eq_zero_iff _).1 h0)
  have hq : ((len (normalize u s) : Nat) : ℚ) ≠ 0 := by exact_mod_cast hlen
  have hd1 : levenshteinDistance [] (normalize u s) = .ok (len (normalize u s)) := by
    simp [levenshteinDistance, Ne.symm h, len]
  have hd2 : levenshteinDistance (normalize u s) [] = .ok (len (normalize u s)) := by
    simp [levenshteinDistance, h, hlen, len]
  refine ⟨?_, ?_, hd1, hd2⟩
  · rw [scoreField_eq u [] s [] (normalize u s) w _ (len (normalize u s)) (normalize_nil u)
      rfl h hd1 (by simp [len])]
    rw [div_self hq]
    simp
  · rw [scoreField_eq u s [] (normalize u s) [] w _ (len (normalize u s)) rfl
      (normalize_nil u) (Ne.symm h) hd2 (by simp [len])]
    rw [div_self hq]
    simp

theorem scoreField_empty_vs_nonempty_witness :
    normalize basicUnicode "Doe".toList ≠ [] ∧
      (scoreField basicUnicode [] "Doe".toList 5 = .ok 0 ∧
        scoreField basicUnicode "Doe".toList [] 5 = .ok 0 ∧
        levenshteinDistance [] (normalize basicUnicode "Doe".toList) =
          .ok (len (normalize basicUnicode "Doe".toList)) ∧
        levenshteinDistance (normalize basicUnicode "Doe".toList) [] =
          .ok (len (normalize basicUnicode "Doe".toList))) :=
  ⟨by decide, scoreField_empty_vs_nonempty basicUnicode _ 5 (by decide)⟩

/-! ## The enumeration of index pairs -/

theorem mem_indexPairs (N i j : Nat) : (i, j) ∈ indexPairs N ↔ i < j ∧ j < N := by
  simp only [indexPairs, List.mem_flatMap, List.mem_range, List.mem_map, List.mem_range'_1,
    Prod.mk.injEq]
  constructor
  · rintro ⟨a, ha, b, ⟨hb1, hb2⟩, rfl, rfl⟩
    omega
  · rintro ⟨h1, h2⟩
    exact ⟨i, by omega, j, ⟨by omega, by omega⟩, rfl, rfl⟩

theorem indexPairs_pairwise (N : Nat) :
    (indexPairs N).Pairwise fun p q => p.1 < q.1 ∨ (p.1 = q.1 ∧ p.2 < q.2) := by
  rw [indexPairs, List.pairwise_flatMap]
  constructor
  · intro i _
    rw [List.pairwise_map]
    exact (List.pairwise_lt_range' (i + 1) (N - (i + 1))).imp fun h => Or.inr ⟨rfl, h⟩
  · refine (List.pairwise_lt_range N).imp ?_
    intro a b hab p hp q hq
    simp only [List.mem_map] at hp hq
    obtain ⟨_, _, rfl⟩ := hp
    obtain ⟨_, _, rfl⟩ := hq
    exact Or.inl hab

theorem indexPairs_nodup (N : Nat) : (indexPairs N).Nodup := by
  refine (indexPairs_pairwise N).imp ?_
  rintro p q h rfl
  omega

theorem sum_range_sub (K : Nat) :
    ∀ N, N ≤ K → 2 * ((List.range N).map fun i => K - (i + 1)).sum + N * (N + 1) = 2 * N * K := by
  intro N
  induction N with
  | zero => intro _; simp
  | succ N ih =>
    intro h
    obtain ⟨c, rfl⟩ : ∃ c, K = N + 1 + c := ⟨K - (N + 1), by omega⟩
    have ih1 := ih (by omega)
    rw [List.range_succ, List.map_append, List.sum_append]
    simp only [List.map_cons, List.map_nil, List.sum_cons, List.sum_nil, Nat.add_sub_cancel_left]
    nlinarith [ih1]

theorem length_indexPairs (N : Nat) : (indexPairs N).length = N * (N - 1) / 2 := by
  have h := sum_range_sub N N (le_refl N)
  have hlen : (indexPairs N).length = ((List.range N).map fun i => N - (i + 1)).sum := by
    rw [indexPairs, List.length_flatMap]
    congr 1
    apply List.map_congr_left
    intro i _
    simp
  rw [hlen]
  cases N with
  | zero => simp
  | succ n =>
    simp only [Nat.add_sub_cancel] at *
    apply (Nat.div_eq_of_eq_mul_right (by norm_num : 0 < 2) _).symm
    nlinarith [h]

theorem scoreValue_of_ok {u : Unicode} {a b : GoString} {w v : ℚ}
    (h : scoreField u a b w = .ok v) : scoreValue u a b w = v := by
  simp [scoreValue, h]

theorem scoreValue_of_eq (u : Unicode) (a b : GoString) (w : ℚ)
    (h : normalize u a = normalize u b) : scoreValue u a b w = w := by
  apply scoreValue_of_ok
  simp only [normalize] at h
  simp only [scoreField, if_pos h.symm]

/-- On a well-formed input, the result at the position of the index pair `(i, j)`
is the entry for data rows `i` and `j`. -/
theorem result_at (u : Unicode) (records : List (List GoString)) (h : WellFormed records)
    (k i j : Nat) (hk : (indexPairs (records.length - 1))[k]? = some (i, j)) :
    ∃ results, FindDuplicates u records = .ok results ∧
      results[k]? = some (pairResult u (dataRow records i) (dataRow records j)) := by
  refine ⟨_, FindDuplicates_ok u records h, ?_⟩
  rw [List.getElem?_map, hk]
  rfl

/-- Replacing column 0 of every row by `rename row` keeps the input well-formed. -/
theorem wellFormed_rename (records : List (List GoString)) (h : WellFormed records)
    (rename : List GoString → GoString) :
    WellFormed (records.map fun row => rename row :: row.tail) := by
  obtain ⟨⟨headers, data, hrec, hlen⟩, hrows⟩ := h
  subst hrec
  refine ⟨⟨_, _, rfl, by simp [hlen]⟩, ?_⟩
  intro row hrow
  simp only [List.map_cons, List.tail_cons, List.mem_map] at hrow
  obtain ⟨r, hr, rfl⟩ := hrow
  have := hrows r (by simpa using hr)
  simp [this]

theorem column_rename (records : List (List GoString)) (rename : List GoString → GoString)
    (i c : Nat) :
    column (dataRow (records.map fun row => rename row :: row.tail) i) (c + 1) =
      column (dataRow records i) (c + 1) := by
  simp only [column, dataRow, List.getD_eq_getElem?_getD, List.getElem?_map]
  cases hrow : records[i + 1]? with
  | none => simp
  | some row => cases row <;> simp

theorem percentage_rename (u : Unicode) (records : List (List GoString))
    (rename : List GoString → GoString) (i j : Nat) :
    (pairResult u (dataRow (records.map fun row => rename row :: row.tail) i)
        (dataRow (records.map fun row => rename row :: row.tail) j)).percentage =
      (pairResult u (dataRow records i) (dataRow records j)).percentage := by
  simp only [pairResult, column_rename]

/-! ## Claims about the pair loop -/

/-- C4. Pair count: on a valid header and `N` well-formed data rows the pair loop
produces exactly `N*(N-1)/2` results, one for each index pair `(i, j)` with
`i < j < N`; no pair occurs twice and none has `i = j`. -/
theorem pair_count (u : Unicode) (records : List (List GoString)) (h : WellFormed records) :
    ∃ results, FindDuplicates u records = .ok results ∧
      results.length = (records.length - 1) * (records.length - 1 - 1) / 2 ∧
      results = (indexPairs (records.length - 1)).map (fun p =>
        pairResult u (dataRow records p.1) (dataRow records p.2)) ∧
      (indexPairs (records.length - 1)).Nodup ∧
      ∀ i j, (i, j) ∈ indexPairs (records.length - 1) ↔ i < j ∧ j < records.length - 1 := by
  refine ⟨_, FindDuplicates_ok u records h, ?_, rfl, indexPairs_nodup _, mem_indexPairs _⟩
  rw [List.length_map, length_indexPairs]

theorem pair_count_witness :
    WellFormed mockCSVData ∧
      ∃ results, FindDuplicates basicUnicode mockCSVData = .ok results ∧
        results.length = (mockCSVData.length - 1) * (mockCSVData.length - 1 - 1) / 2 ∧
        results = (indexPairs (mockCSVData.length - 1)).map (fun p =>
          pairResult basicUnicode (dataRow mockCSVData p.1) (dataRow mockCSVData p.2)) ∧
        (indexPairs (mockCSVData.length - 1)).Nodup ∧
        ∀ i j, (i, j) ∈ indexPairs (mockCSVData.length - 1) ↔
          i < j ∧ j < mockCSVData.length - 1 :=
  ⟨⟨⟨_, _, rfl, rfl⟩, by decide⟩,
    pair_count basicUnicode mockCSVData ⟨⟨_, _, rfl, rfl⟩, by decide⟩⟩

/-- C5. Enumeration order: the results follow the index pairs `(i, j)`,
`i < j < N`, in lexicographic order; the result for `(i, j)` carries the id of
data row `i` as ContactID and the id of data row `j` as Source ContactID; with
three data rows the results are those of `(0,1)`, `(0,2)`, `(1,2)`, in that
order. -/
theorem enumeration_order (u : Unicode) (records : List (List GoString))
    (h : WellFormed records) :
    ∃ results, FindDuplicates u records = .ok results ∧
      results.map (fun r => (r.contactID, r.sourceContactID)) =
        (indexPairs (records.length - 1)).map (fun p =>
          (column (dataRow records p.1) 0, column (dataRow records p.2) 0)) ∧
      (indexPairs (records.length - 1)).Pairwise
        (fun p q => p.1 < q.1 ∨ (p.1 = q.1 ∧ p.2 < q.2)) ∧
      (∀ p ∈ indexPairs (records.length - 1), p.1 < p.2 ∧ p.2 < records.length - 1) ∧
      (records.length - 1 = 3 →
        results.map (fun r => (r.contactID, r.sourceContactID)) =
          [(column (dataRow records 0) 0, column (dataRow records 1) 0),
           (column (dataRow records 0) 0, column (dataRow records 2) 0),
           (column (dataRow records 1) 0, column (dataRow records 2) 0)]) := by
  refine ⟨_, FindDuplicates_ok u records h, ?_, indexPairs_pairwise _, ?_, ?_⟩
  · simp [List.map_map, Function.comp_def, pairResult]
  · rintro ⟨i, j⟩ hp
    exact (mem_indexPairs _ i j).1 hp
  · intro h3
    rw [h3]
    have hp : indexPairs 3 = [(0, 1), (0, 2), (1, 2)] := by decide
    simp [hp, pairResult]

theorem enumeration_order_witness :
    WellFormed mockCSVData ∧
      ∃ results, FindDuplicates basicUnicode mockCSVData = .ok results ∧
        results.map (fun r => (r.contactID, r.sourceContactID)) =
          (indexPairs (mockCSVData.length - 1)).map (fun p =>
            (column (dataRow mockCSVData p.1) 0, column (dataRow mockCSVData p.2) 0)) ∧
        (indexPairs (mockCSVData.length - 1)).Pairwise
          (fun p q => p.1 < q.1 ∨ (p.1 = q.1 ∧ p.2 < q.2)) ∧
        (∀ p ∈ indexPairs (mockCSVData.length - 1),
          p.1 < p.2 ∧ p.2 < mockCSVData.length - 1) ∧
        (mockCSVData.length - 1 = 3 →
          results.map (fun r => (r.contactID, r.sourceContactID)) =
            [(column (dataRow mockCSVData 0) 0, column (dataRow mockCSVData 1) 0),
             (column (dataRow mockCSVData 0) 0, column (dataRow mockCSVData 2) 0),
             (column (dataRow mockCSVData 1) 0, column (dataRow mockCSVData 2) 0)]) :=
  ⟨⟨⟨_, _, rfl, rfl⟩, by decide⟩,
    enumeration_order basicUnicode mockCSVData ⟨⟨_, _, rfl, rfl⟩, by decide⟩⟩

/-- C6. Total score definition: the score reported for a pair of data rows is
`scoreField` of the two names with weight 5, plus that of the last names with 5,
the emails with 20, the postal codes with 30 and the addresses with 40, the
fields being columns 1 to 5; replacing column 0 of every row by anything else
leaves every score unchanged. -/
theorem total_score_definition (u : Unicode) (records : List (List GoString))
    (h : WellFormed records) :
    ∃ results, FindDuplicates u records = .ok results ∧
      results.length = (indexPairs (records.length - 1)).length ∧
      (∀ (k i j : Nat), (indexPairs (records.length - 1))[k]? = some (i, j) →
        ∃ (r : MatchResult) (v1 v2 v3 v4 v5 : ℚ), results[k]? = some r ∧
          scoreField u (column (dataRow records i) 1) (column (dataRow records j) 1) 5 = .ok v1 ∧
          scoreField u (column (dataRow records i) 2) (column (dataRow records j) 2) 5 = .ok v2 ∧
          scoreField u (column (dataRow records i) 3) (column (dataRow records j) 3) 20 = .ok v3 ∧
          scoreField u (column (dataRow records i) 4) (column (dataRow records j) 4) 30 = .ok v4 ∧
          scoreField u (column (dataRow records i) 5) (column (dataRow records j) 5) 40 = .ok v5 ∧
          r.percentage = v1 + v2 + v3 + v4 + v5) ∧
      ∀ rename : List GoString → GoString,
        ∃ renamed, FindDuplicates u (records.map fun row => rename row :: row.tail) =
            .ok renamed ∧
          renamed.map (fun r => r.percentage) = results.map (fun r => r.percentage) := by
  refine ⟨_, FindDuplicates_ok u records h, by simp, ?_, ?_⟩
  swap
  · intro rename
    refine ⟨_, FindDuplicates_ok u _ (wellFormed_rename records h rename), ?_⟩
    simp only [List.length_map, List.map_map]
    apply List.map_congr_left
    intro p _
    exact percentage_rename u records rename p.1 p.2
  intro k i j hk
  refine ⟨pairResult u (dataRow records i) (dataRow records j), _, _, _, _, _, ?_,
    scoreField_ok u _ _ 5, scoreField_ok u _ _ 5, scoreField_ok u _ _ 20,
    scoreField_ok u _ _ 30, scoreField_ok u _ _ 40, ?_⟩
  · rw [List.getElem?_map, hk]
    rfl
  · simp [pairResult]

theorem total_score_definition_witness :
    WellFormed mockCSVData ∧
      ∃ results, FindDuplicates basicUnicode mockCSVData = .ok results ∧
        results.length = (indexPairs (mockCSVData.length - 1)).length ∧
        (∀ (k i j : Nat), (indexPairs (mockCSVData.length - 1))[k]? = some (i, j) →
          ∃ (r : MatchResult) (v1 v2 v3 v4 v5 : ℚ), results[k]? = some r ∧
            scoreField basicUnicode (column (dataRow mockCSVData i) 1)
              (column (dataRow mockCSVData j) 1) 5 = .ok v1 ∧
            scoreField basicUnicode (column (dataRow mockCSVData i) 2)
              (column (dataRow mockCSVData j) 2) 5 = .ok v2 ∧
            scoreField basicUnicode (column (dataRow mockCSVData i) 3)
              (column (dataRow mockCSVData j) 3) 20 = .ok v3 ∧
            scoreField basicUnicode (column (dataRow mockCSVData i) 4)
              (column (dataRow mockCSVData j) 4) 30 = .ok v4 ∧
            scoreField basicUnicode (column (dataRow mockCSVData i) 5)
              (column (dataRow mockCSVData j) 5) 40 = .ok v5 ∧
            r.percentage = v1 + v2 + v3 + v4 + v5) ∧
        ∀ rename : List GoString → GoString,
          ∃ renamed, FindDuplicates basicUnicode
              (mockCSVData.map fun row => rename row :: row.tail) = .ok renamed ∧
            renamed.map (fun r => r.percentage) = results.map (fun r => r.percentage) :=
  ⟨⟨⟨_, _, rfl, rfl⟩, by decide⟩,
    total_score_definition basicUnicode mockCSVData ⟨⟨_, _, rfl, rfl⟩, by decide⟩⟩

/-- C7. Total score bound: on well-formed rows every result has a score in
`[0, 100]`. -/
theorem total_score_bound (u : Unicode) (records : List (List GoString))
    (h : WellFormed records) :
    ∃ results, FindDuplicates u records = .ok results ∧
      ∀ r ∈ results, 0 ≤ r.percentage ∧ r.percentage ≤ 100 := by
  refine ⟨_, FindDuplicates_ok u records h, ?_⟩
  intro r hr
  obtain ⟨p, _, rfl⟩ := List.mem_map.1 hr
  have h1 := scoreValue_range u (column (dataRow records p.1) 1)
    (column (dataRow records p.2) 1) 5 (by norm_num)
  have h2 := scoreValue_range u (column (dataRow records p.1) 2)
    (column (dataRow records p.2) 2) 5 (by norm_num)
  have h3 := scoreValue_range u (column (dataRow records p.1) 3)
    (column (dataRow records p.2) 3) 20 (by norm_num)
  have h4 := scoreValue_range u (column (dataRow records p.1) 4)
    (column (dataRow records p.2) 4) 30 (by norm_num)
  have h5 := scoreValue_range u (column (dataRow records p.1) 5)
    (column (dataRow records p.2) 5) 40 (by norm_num)
  simp only [pairResult]
  constructor <;> linarith [h1.1, h1.2, h2.1, h2.2, h3.1, h3.2, h4.1, h4.2, h5.1, h5.2]

theorem total_score_bound_witness :
    WellFormed mockCSVData ∧
      ∃ results, FindDuplicates basicUnicode mockCSVData = .ok results ∧
        ∀ r ∈ results, 0 ≤ r.percentage ∧ r.percentage ≤ 100 :=
  ⟨⟨⟨_, _, rfl, rfl⟩, by decide⟩,
    total_score_bound basicUnicode mockCSVData ⟨⟨_, _, rfl, rfl⟩, by decide⟩⟩

/-- C9. Full-match score: a pair of data rows whose columns 1 to 5 are pairwise
identical, whatever their ids, gets the total score 100. -/
theorem full_match_score (u : Unicode) (records : List (List GoString))
    (h : WellFormed records) (k i j : Nat)
    (hk : (indexPairs (records.length - 1))[k]? = some (i, j))
    (hsame : ∀ c ∈ [1, 2, 3, 4, 5],
      column (dataRow records i) c = column (dataRow records j) c) :
    ∃ results r, FindDuplicates u records = .ok results ∧ results[k]? = some r ∧
      r.contactID = column (dataRow records i) 0 ∧
      r.sourceContactID = column (dataRow records j) 0 ∧ r.percentage = 100 := by
  obtain ⟨results, hrun, hres⟩ := result_at u records h k i j hk
  refine ⟨results, _, hrun, hres, rfl, rfl, ?_⟩
  simp only [pairResult]
  rw [scoreValue_of_eq u _ _ 5 (congrArg _ (hsame 1 (by simp))),
    scoreValue_of_eq u _ _ 5 (congrArg _ (hsame 2 (by simp))),
    scoreValue_of_eq u _ _ 20 (congrArg _ (hsame 3 (by simp))),
    scoreValue_of_eq u _ _ 30 (congrArg _ (hsame 4 (by simp))),
    scoreValue_of_eq u _ _ 40 (congrArg _ (hsame 5 (by simp)))]
  norm_num

theorem full_match_score_witness :
    WellFormed mockCSVData ∧
      (indexPairs (mockCSVData.length - 1))[1]? = some (0, 2) ∧
      (∀ c ∈ [1, 2, 3, 4, 5],
        column (dataRow mockCSVData 0) c = column (dataRow mockCSVData 2) c) ∧
      ∃ results r, FindDuplicates basicUnicode mockCSVData = .ok results ∧
        results[1]? = some r ∧
        r.contactID = column (dataRow mockCSVData 0) 0 ∧
        r.sourceContactID = column (dataRow mockCSVData 2) 0 ∧ r.percentage = 100 :=
  ⟨⟨⟨_, _, rfl, rfl⟩, by decide⟩, by decide, by decide,
    full_match_score basicUnicode mockCSVData ⟨⟨_, _, rfl, rfl⟩, by decide⟩ 1 0 2
      (by decide) (by decide)⟩

set_option maxRecDepth 100000 in
/-- The first two contacts of `mockCSVData`: they are identical in the last name only
and differ in the other four fields, and their score is 3679/44 (83.61), neither
the weight 5 of the last name nor 40. -/
theorem partial_match_mock_rows :
    (column (dataRow mockCSVData 0) 2 = column (dataRow mockCSVData 1) 2 ∧
      ∀ c ∈ [1, 3, 4, 5], column (dataRow mockCSVData 0) c ≠ column (dataRow mockCSVData 1) c) ∧
    ∃ results r, FindDuplicates basicUnicode mockCSVData = .ok results ∧
      results[0]? = some r ∧ r.contactID = "1001".toList ∧
      r.sourceContactID = "1002".toList ∧ r.percentage = 3679 / 44 ∧ r.percentage ≠ 5 ∧
      r.percentage ≠ 40 := by
  refine ⟨by decide, ?_⟩
  obtain ⟨results, hrun, hres⟩ := result_at basicUnicode mockCSVData
    ⟨⟨_, _, rfl, rfl⟩, by decide⟩ 0 0 1 (by decide)
  have e1 : scoreValue basicUnicode "John".toList "Jane".toList 5 = 5 / 4 :=
    scoreValue_of_ok (by
      rw [scoreField_eq basicUnicode _ _ "john".toList "jane".toList 5 3 4 (by decide)
        (by decide) (by decide) (by decide) (by decide)]
      norm_num)
  have e2 : scoreValue basicUnicode "Doe".toList "Doe".toList 5 = 5 :=
    scoreValue_of_eq _ _ _ _ rfl
  have e3 : scoreValue basicUnicode "john.doe@example.com".toList
      "jane.doe@example.com".toList 20 = 17 :=
    scoreValue_of_ok (by
      rw [scoreField_eq basicUnicode _ _ "john.doe@example.com".toList
        "jane.doe@example.com".toList 20 3 20 (by decide) (by decide) (by decide) (by decide)
        (by decide)]
      norm_num)
  have e4 : scoreValue basicUnicode "12345".toList "12346".toList 30 = 24 :=
    scoreValue_of_ok (by
      rw [scoreField_eq basicUnicode _ _ "12345".toList "12346".toList 30 1 5 (by decide)
        (by decide) (by decide) (by decide) (by decide)]
      norm_num)
  have e5 : scoreValue basicUnicode "123 Main St".toList "124 Main St".toList 40 = 400 / 11 :=
    scoreValue_of_ok (by
      rw [scoreField_eq basicUnicode _ _ "123 main st".toList "124 main st".toList 40 1 11
        (by decide) (by decide) (by decide) (by decide) (by decide)]
      norm_num)
  have hp : (pairResult basicUnicode (dataRow mockCSVData 0) (dataRow mockCSVData 1)).percentage
      = 3679 / 44 := by
    show 0 + scoreValue basicUnicode "John".toList "Jane".toList 5
      + scoreValue basicUnicode "Doe".toList "Doe".toList 5
      + scoreValue basicUnicode "john.doe@example.com".toList "jane.doe@example.com".toList 20
      + scoreValue basicUnicode "12345".toList "12346".toList 30
      + scoreValue basicUnicode "123 Main St".toList "124 Main St".toList 40 = 3679 / 44
    rw [e1, e2, e3, e4, e5]
    norm_num
  refine ⟨results, _, hrun, hres, rfl, rfl, hp, ?_, ?_⟩ <;> rw [hp] <;> norm_num

set_option maxRecDepth 100000 in
/-- The two contacts of `addressOnlyData`: they are identical in the address only and
differ in the other four fields, and their score is 229/4 (57.25), not the
weight 40 of the address. -/
theorem address_only_rows :
    (column (dataRow addressOnlyData 0) 5 = column (dataRow addressOnlyData 1) 5 ∧
      ∀ c ∈ [1, 2, 3, 4],
        column (dataRow addressOnlyData 0) c ≠ column (dataRow addressOnlyData 1) c) ∧
    ∃ results r, FindDuplicates basicUnicode addressOnlyData = .ok results ∧
      results[0]? = some r ∧ r.contactID = "1001".toList ∧
      r.sourceContactID = "1002".toList ∧ r.percentage = 229 / 4 ∧ r.percentage ≠ 40 := by
  refine ⟨by decide, ?_⟩
  obtain ⟨results, hrun, hres⟩ := result_at basicUnicode addressOnlyData
    ⟨⟨_, _, rfl, rfl⟩, by decide⟩ 0 0 1 (by decide)
  have e1 : scoreValue basicUnicode "John".toList "Jane".toList 5 = 5 / 4 :=
    scoreValue_of_ok (by
      rw [scoreField_eq basicUnicode _ _ "john".toList "jane".toList 5 3 4 (by decide)
        (by decide) (by decide) (by decide) (by decide)]
      norm_num)
  have e2 : scoreValue basicUnicode "Doe".toList "Smith".toList 5 = 0 :=
    scoreValue_of_ok (by
      rw [scoreField_eq basicUnicode _ _ "doe".toList "smith".toList 5 5 5 (by decide)
        (by decide) (by decide) (by decide) (by decide)]
      norm_num)
  have e3 : scoreValue basicUnicode "john.doe@example.com".toList
      "jane.smith@example.net".toList 20 = 10 :=
    scoreValue_of_ok (by
      rw [scoreField_eq basicUnicode _ _ "john.doe@example.com".toList
        "jane.smith@example.net".toList 20 11 22 (by decide) (by decide) (by decide)
        (by decide) (by decide)]
      norm_num)
  have e4 : scoreValue basicUnicode "12345".toList "54321".toList 30 = 6 :=
    scoreValue_of_ok (by
      rw [scoreField_eq basicUnicode _ _ "12345".toList "54321".toList 30 4 5 (by decide)
        (by decide) (by decide) (by decide) (by decide)]
      norm_num)
  have e5 : scoreValue basicUnicode "123 Main St".toList "123 Main St".toList 40 = 40 :=
    scoreValue_of_eq _ _ _ _ rfl
  have hp : (pairResult basicUnicode (dataRow addressOnlyData 0)
      (dataRow addressOnlyData 1)).percentage = 229 / 4 := by
    show 0 + scoreValue basicUnicode "John".toList "Jane".toList 5
      + scoreValue basicUnicode "Doe".toList "Smith".toList 5
      + scoreValue basicUnicode "john.doe@example.com".toList
          "jane.smith@example.net".toList 20
      + scoreValue basicUnicode "12345".toList "54321".toList 30
      + scoreValue basicUnicode "123 Main St".toList "123 Main St".toList 40 = 229 / 4
    rw [e1, e2, e3, e4, e5]
    norm_num
  refine ⟨results, _, hrun, hres, rfl, rfl, hp, ?_⟩
  rw [hp]
  norm_num

/-- C8 at pairs of contacts 1001 and 1002 that match on one field only. In
`addressOnlyData` they match on the address only: the claim gives 40.00, the code
adds the similarity of the fields that merely differ and returns 229/4 (57.25).
In `mockCSVData`, the data of the test `TestFindDuplicates_AddressMatchScore`,
which asserts 40.00 for the pair, they match on the last name only: the claim
gives 5.00, the code returns 3679/44 (83.61). -/
theorem single_field_match_score :
    ((column (dataRow addressOnlyData 0) 5 = column (dataRow addressOnlyData 1) 5 ∧
        ∀ c ∈ [1, 2, 3, 4],
          column (dataRow addressOnlyData 0) c ≠ column (dataRow addressOnlyData 1) c) ∧
      ∃ results r, FindDuplicates basicUnicode addressOnlyData = .ok results ∧
        results[0]? = some r ∧ r.contactID = "1001".toList ∧
        r.sourceContactID = "1002".toList ∧ r.percentage = 229 / 4 ∧ r.percentage ≠ 40) ∧
    ((column (dataRow mockCSVData 0) 2 = column (dataRow mockCSVData 1) 2 ∧
        ∀ c ∈ [1, 3, 4, 5],
          column (dataRow mockCSVData 0) c ≠ column (dataRow mockCSVData 1) c) ∧
      ∃ results r, FindDuplicates basicUnicode mockCSVData = .ok results ∧
        results[0]? = some r ∧ r.contactID = "1001".toList ∧
        r.sourceContactID = "1002".toList ∧ r.percentage = 3679 / 44 ∧ r.percentage ≠ 5 ∧
        r.percentage ≠ 40) :=
  ⟨address_only_rows, partial_match_mock_rows⟩

/-! ## Normalisation and totality of the scorer -/

theorem toNat_ofNat_small (n : Nat) (h : n < 0xd800) : (Char.ofNat n).toNat = n := by
  have hv : n.isValidChar := Or.inl h
  rw [Char.ofNat, dif_pos hv]
  rfl

theorem basicUnicode_ToLower_idem (c : Char) :
    basicUnicode.ToLower (basicUnicode.ToLower c) = basicUnicode.ToLower c := by
  simp only [basicUnicode]
  by_cases h : 65 ≤ c.toNat ∧ c.toNat ≤ 90
  · rw [if_pos h]
    have h2 : (Char.ofNat (c.toNat + 32)).toNat = c.toNat + 32 :=
      toNat_ofNat_small _ (by omega)
    rw [if_neg (by rw [h2]; omega)]
  · rw [if_neg h, if_neg h]

theorem ToLower_fixed (u : Unicode) (t : GoString) (h : ∀ c ∈ t, u.ToLower c = c) :
    ToLower u t = t := by
  induction t with
  | nil => rfl
  | cons c t ih =>
    simp only [ToLower, List.map_cons] at ih ⊢
    rw [h c (by simp), ih (fun d hd => h d (by simp [hd]))]

theorem TrimSpace_eq (u : Unicode) (s : GoString) :
    TrimSpace u s = (s.dropWhile u.IsSpace).rdropWhile u.IsSpace := rfl

theorem mem_TrimSpace (u : Unicode) (s : GoString) (c : Char) (h : c ∈ TrimSpace u s) : c ∈ s := by
  rw [TrimSpace_eq] at h
  exact (List.dropWhile_sublist _).subset ((List.rdropWhile_prefix _ _).sublist.subset h)

theorem TrimSpace_idem (u : Unicode) (s : GoString) :
    TrimSpace u (TrimSpace u s) = TrimSpace u s := by
  have h1 : (TrimSpace u s).dropWhile u.IsSpace = TrimSpace u s := by
    rw [List.dropWhile_eq_self_iff]
    intro hl
    have hy : ∀ hl : 0 < (s.dropWhile u.IsSpace).length,
        ¬ u.IsSpace ((s.dropWhile u.IsSpace).get ⟨0, hl⟩) :=
      List.dropWhile_eq_self_iff.1 (List.dropWhile_idempotent _ _)
    have hpre : TrimSpace u s <+: s.dropWhile u.IsSpace := List.rdropWhile_prefix _ _
    have hlen : 0 < (s.dropWhile u.IsSpace).length := lt_of_lt_of_le hl hpre.length_le
    have := hy hlen
    obtain ⟨r, hr⟩ := hpre
    have hget : (TrimSpace u s).get ⟨0, hl⟩ = (s.dropWhile u.IsSpace).get ⟨0, hlen⟩ := by
      simp only [List.get_eq_getElem]
      simp only [← hr]
      rw [List.getElem_append_left]
    rw [hget]
    exact this
  conv_lhs => rw [TrimSpace_eq, h1]
  rw [TrimSpace_eq]
  exact List.rdropWhile_idempotent _ _

theorem normalize_idem (u : Unicode) (hlow : ∀ c, u.ToLower (u.ToLower c) = u.ToLower c)
    (a : GoString) : normalize u (normalize u a) = normalize u a := by
  have hfix : ToLower u (TrimSpace u (ToLower u a)) = TrimSpace u (ToLower u a) := by
    apply ToLower_fixed
    intro c hc
    have := mem_TrimSpace u _ c hc
    simp only [ToLower, List.mem_map] at this
    obtain ⟨d, _, rfl⟩ := this
    exact hlow d
  simp only [normalize, hfix, TrimSpace_idem]

theorem scoreField_congr (u : Unicode) (a a' b b' : GoString) (w : ℚ)
    (ha : normalize u a' = normalize u a) (hb : normalize u b' = normalize u b) :
    scoreField u a' b' w = scoreField u a b w := by
  simp only [normalize] at ha hb
  simp only [scoreField, ha, hb]

/-- C15. Normalisation happens before any comparison: when the lower-case table is
idempotent, `scoreField(a, b, w)` equals `scoreField(norm(a), norm(b), w)`, `norm`
is idempotent, and values with the same normalised forms get the same score. -/
theorem scoreField_normalized (u : Unicode)
    (hlow : ∀ c, u.ToLower (u.ToLower c) = u.ToLower c) (a b : GoString) (w : ℚ) :
    scoreField u a b w = scoreField u (normalize u a) (normalize u b) w ∧
      normalize u (normalize u a) = normalize u a ∧
      ∀ a' b', normalize u a' = normalize u a → normalize u b' = normalize u b →
        scoreField u a' b' w = scoreField u a b w :=
  ⟨(scoreField_congr u a _ b _ w (normalize_idem u hlow a) (normalize_idem u hlow b)).symm,
    normalize_idem u hlow a, fun a' b' ha hb => scoreField_congr u a a' b b' w ha hb⟩

theorem scoreField_normalized_witness :
    (∀ c, basicUnicode.ToLower (basicUnicode.ToLower c) = basicUnicode.ToLower c) ∧
      (scoreField basicUnicode "  John ".toList "JANE".toList 5 =
          scoreField basicUnicode (normalize basicUnicode "  John ".toList)
            (normalize basicUnicode "JANE".toList) 5 ∧
        normalize basicUnicode (normalize basicUnicode "  John ".toList) =
          normalize basicUnicode "  John ".toList ∧
        ∀ a' b', normalize basicUnicode a' = normalize basicUnicode "  John ".toList →
          normalize basicUnicode b' = normalize basicUnicode "JANE".toList →
          scoreField basicUnicode a' b' 5 =
            scoreField basicUnicode "  John ".toList "JANE".toList 5) :=
  ⟨basicUnicode_ToLower_idem,
    scoreField_normalized basicUnicode basicUnicode_ToLower_idem _ _ 5⟩

/-- C18. Totality of the scorer: `levenshteinDistance` and `scoreField` return on all
strings (no index leaves a row, every row has `len(s2)+1` cells), and where the
normalised forms differ the divisor `max(len(na), len(nb))` is positive. -/
theorem scorer_total (u : Unicode) (a b s1 s2 : GoString) (w : ℚ) :
    (∃ d, levenshteinDistance s1 s2 = .ok d) ∧
      (∃ row, outerLoop s2 s1 0 (List.range (len s2 + 1)) = .ok row ∧
        row.length = len s2 + 1) ∧
      (∃ v, scoreField u a b w = .ok v) ∧
      (normalize u b ≠ normalize u a →
        0 < max (len (normalize u a)) (len (normalize u b))) := by
  obtain ⟨d, hd, _⟩ := levenshteinDistance_ok s1 s2
  obtain ⟨row, hrow, hlen, _⟩ := outerLoop_ok s2 s1 0 (List.range (len s2 + 1))
    (by simp) (rowBound_range _)
  exact ⟨⟨d, hd⟩, ⟨row, hrow, hlen⟩, ⟨_, scoreField_ok u a b w⟩, len_max_pos⟩

/-! ## Shape and header errors -/

theorem sourceLoop_bad_row (u : Unicode) (records : List (List GoString))
    (contactID name lname email postalZip address : GoString) (k : Nat) (js : List Nat)
    (bad : List GoString) (result : List MatchResult)
    (hbad : records[k + 1]? = some bad) (hlen : bad.length ≠ 6) :
    sourceLoop u records contactID name lname email postalZip address (k :: js) result =
      .error (.invalidRecord (k + 1) bad.length) := by
  rw [sourceLoop, hbad]
  rcases bad with _ | ⟨a, _ | ⟨b, _ | ⟨c, _ | ⟨d, _ | ⟨e, _ | ⟨f, _ | ⟨g, r⟩⟩⟩⟩⟩⟩⟩ <;>
    first
      | rfl
      | exact absurd rfl hlen

theorem sourceLoop_shape_error (u : Unicode) (records : List (List GoString))
    (contactID name lname email postalZip address : GoString) (k : Nat) (js2 : List Nat)
    (bad : List GoString) (hbad : records[k + 1]? = some bad) (hlen : bad.length ≠ 6) :
    ∀ (js1 : List Nat) (result : List MatchResult),
      (∀ j ∈ js1, ∃ row, records[j + 1]? = some row ∧ row.length = 6) →
      sourceLoop u records contactID name lname email postalZip address (js1 ++ k :: js2)
        result = .error (.invalidRecord (k + 1) bad.length) := by
  intro js1
  induction js1 with
  | nil =>
    intro result _
    exact sourceLoop_bad_row u records _ _ _ _ _ _ k js2 bad result hbad hlen
  | cons j js1 ih =>
    intro result hgood
    obtain ⟨row, hrow, hrl⟩ := hgood j (by simp)
    obtain ⟨a, b, c, d, e, f, rfl⟩ := length_six row hrl
    rw [List.cons_append, sourceLoop, hrow]
    simp only [scoreField_ok, bind, Except.bind, pure, Except.pure]
    exact ih _ (fun i hi => hgood i (by simp [hi]))

theorem recordLoop_bad_row (u : Unicode) (records : List (List GoString))
    (bad : List GoString) (rest : List (List GoString)) (i : Nat) (result : List MatchResult)
    (hlen : bad.length ≠ 6) :
    recordLoop u records (bad :: rest) i result = .error (.invalidRecord (i + 1) bad.length) := by
  rcases bad with _ | ⟨a, _ | ⟨b, _ | ⟨c, _ | ⟨d, _ | ⟨e, _ | ⟨f, _ | ⟨g, r⟩⟩⟩⟩⟩⟩⟩ <;>
    first
      | exact absurd rfl hlen
      | rfl

/-- The header check and the pair loop on records whose first malformed data row is
`bad`, after the well-formed rows `pre`: what the two shape checks of the loop
report when they are reached. -/
theorem checkAndScore_shape_error (u : Unicode) (headers : List GoString)
    (pre : List (List GoString)) (bad : List GoString) (post : List (List GoString))
    (hh : headers.length = 6) (hpre : ∀ row ∈ pre, row.length = 6) (hbad : bad.length ≠ 6) :
    checkAndScore u (headers :: (pre ++ bad :: post)) =
      .error (.invalidRecord (pre.length + 1) bad.length) := by
  simp only [checkAndScore, hh, ne_eq, not_true_eq_false, if_false, List.tail_cons]
  cases pre with
  | nil => exact recordLoop_bad_row u _ bad post 0 [] hbad
  | cons r0 pre =>
    obtain ⟨a, b, c, d, e, f, rfl⟩ := length_six r0 (hpre r0 (by simp))
    rw [List.cons_append, recordLoop]
    have hsplit : List.range' (0 + 1)
        ((headers :: ([a, b, c, d, e, f] :: (pre ++ bad :: post))).length - 1 - (0 + 1)) =
        List.range' 1 pre.length ++ (pre.length + 1) :: List.range' (pre.length + 2) post.length := by
      have h1 : (headers :: ([a, b, c, d, e, f] :: (pre ++ bad :: post))).length - 1 - (0 + 1) =
          (post.length + 1) + pre.length := by
        simp
        omega
      rw [h1, ← List.range'_append_1 1 pre.length (post.length + 1), List.range'_succ]
      simp [Nat.add_comm, Nat.add_left_comm]
    have hk : (headers :: ([a, b, c, d, e, f] :: (pre ++ bad :: post)))[pre.length + 1 + 1]? =
        some bad := by
      simp only [List.getElem?_cons_succ]
      rw [List.getElem?_append_right (le_refl _)]
      simp
    rw [hsplit, sourceLoop_shape_error u _ _ _ _ _ _ _ (pre.length + 1) _ bad hk hbad]
    · rfl
    intro j hj
    rw [List.mem_range'_1] at hj
    have hj1 : j - 1 < pre.length := by omega
    refine ⟨pre[j - 1], ?_, hpre _ (by simp)⟩
    have : j + 1 = (j - 1) + 1 + 1 := by omega
    rw [this]
    simp only [List.getElem?_cons_succ]
    rw [List.getElem?_append_left hj1, List.getElem?_eq_getElem]

theorem first_bad_row (data : List (List GoString)) (h : ∃ row ∈ data, row.length ≠ 6) :
    ∃ pre bad post, data = pre ++ bad :: post ∧ (∀ row ∈ pre, row.length = 6) ∧
      bad.length ≠ 6 := by
  induction data with
  | nil => simp at h
  | cons r data ih =>
    by_cases hr : r.length = 6
    · obtain ⟨row, hmem, hlen⟩ := h
      have hmem2 : row ∈ data := by
        rcases List.mem_cons.1 hmem with rfl | h2
        · exact absurd hr hlen
        · exact h2
      obtain ⟨pre, bad, post, hd, hpre, hbad⟩ := ih ⟨row, hmem2, hlen⟩
      refine ⟨r :: pre, bad, post, by simp [hd], ?_, hbad⟩
      intro x hx
      rcases List.mem_cons.1 hx with rfl | h2
      · exact hr
      · exact hpre x h2
    · exact ⟨[], r, data, rfl, by simp, hr⟩

theorem readLoop_error_kind : ∀ (rows : List (List GoString)) (fieldsPerRecord line : Nat)
    (e : Failure), readLoop rows fieldsPerRecord line = .error e →
    ∃ l, e = .wrongNumberOfFields l := by
  intro rows
  induction rows with
  | nil => intro _ _ e h; cases h
  | cons r rows ih =>
    intro f line e h
    rw [readLoop] at h
    split_ifs at h with h1 h2
    · injection h with h
      exact ⟨line, h.symm⟩
    · exact ih _ _ e h
    · exact ih _ _ e h

theorem ReadAll_error_kind (file : List (List GoString)) (e : Failure)
    (h : ReadAll file = .error e) : ∃ l, e = .wrongNumberOfFields l := by
  unfold ReadAll at h
  cases hr : readLoop file 0 1 with
  | error e' =>
    rw [hr] at h
    injection h with h
    exact h ▸ readLoop_error_kind file 0 1 e' hr
  | ok v =>
    rw [hr] at h
    cases h

theorem ReadAll_eq (file records : List (List GoString)) (h : ReadAll file = .ok records) :
    records = file := by
  unfold ReadAll at h
  cases hr : readLoop file 0 1 with
  | error e' => rw [hr] at h; cases h
  | ok v =>
    rw [hr] at h
    injection h with h
    exact h.symm

theorem readLoop_error (k : Nat) (hk : 0 < k) (bad : List GoString)
    (post : List (List GoString)) (hbad : bad.length ≠ k) :
    ∀ (pre : List (List GoString)) (line : Nat), (∀ row ∈ pre, row.length = k) →
      readLoop (pre ++ bad :: post) k line = .error (.wrongNumberOfFields (line + pre.length)) := by
  intro pre
  induction pre with
  | nil =>
    intro line _
    simp only [List.nil_append, readLoop, if_pos hk, if_pos hbad, List.length_nil, Nat.add_zero]
  | cons r pre ih =>
    intro line hpre
    have hr : r.length = k := hpre r (by simp)
    rw [List.cons_append, readLoop, if_pos hk, if_neg (by rw [hr]; exact fun h => h rfl),
      ih (line + 1) (fun x hx => hpre x (by simp [hx]))]
    simp only [List.length_cons]
    congr 2
    omega

/-- The run on a file whose first record with another number of fields than the
header is `bad`, after the records `pre`: the reader rejects it. -/
theorem FindDuplicates_read_error (u : Unicode) (headers : List GoString)
    (pre : List (List GoString)) (bad : List GoString) (post : List (List GoString))
    (hpos : 0 < headers.length) (hpre : ∀ row ∈ pre, row.length = headers.length)
    (hbad : bad.length ≠ headers.length) :
    FindDuplicates u (headers :: (pre ++ bad :: post)) =
      .error (.wrongNumberOfFields (pre.length + 2)) := by
  have h := readLoop_error headers.length hpos bad post hbad pre 2 hpre
  simp only [FindDuplicates, ReadAll, readLoop, Nat.lt_irrefl, if_false, h]
  congr 2
  omega

theorem exists_bad_row {data : List (List GoString)} (hall : ¬ ∀ row ∈ data, row.length = 6) :
    ∃ row ∈ data, row.length ≠ 6 := by
  by_contra hcon
  apply hall
  intro row hmem
  by_contra hne
  exact hcon ⟨row, hmem, hne⟩

/-- Under a six-column header the run either returns the results of all pairs or
fails in the reader at the first data row without six fields. -/
theorem FindDuplicates_six (u : Unicode) (headers : List GoString)
    (data : List (List GoString)) (hh : headers.length = 6) :
    ((∀ row ∈ data, row.length = 6) ∧
        FindDuplicates u (headers :: data) = .ok ((indexPairs data.length).map fun p =>
          pairResult u (dataRow (headers :: data) p.1) (dataRow (headers :: data) p.2))) ∨
      ((∃ row ∈ data, row.length ≠ 6) ∧
        ∃ line, FindDuplicates u (headers :: data) = .error (.wrongNumberOfFields line)) := by
  by_cases hall : ∀ row ∈ data, row.length = 6
  · left
    have hok := FindDuplicates_ok u (headers :: data) ⟨⟨_, _, rfl, hh⟩, hall⟩
    simp only [List.length_cons, Nat.add_sub_cancel] at hok
    exact ⟨hall, hok⟩
  · right
    have hex := exists_bad_row hall
    obtain ⟨pre, bad, post, rfl, hpre, hbad⟩ := first_bad_row data hex
    exact ⟨hex, _, FindDuplicates_read_error u headers pre bad post (by omega)
      (by rw [hh]; exact hpre) (by rw [hh]; exact hbad)⟩

/-- C11. Shape failure is all-or-nothing: under a six-column header the run fails
exactly when some data row has a field count other than 6 (the reader rejects
the file), and a run that returns results has found every row well-formed and
returns the result of every pair: no row is skipped and no partial list is
returned. -/
theorem shape_failure_all_or_nothing (u : Unicode) (headers : List GoString)
    (data : List (List GoString)) (hh : headers.length = 6) :
    ((∃ e, FindDuplicates u (headers :: data) = .error e) ↔ ∃ row ∈ data, row.length ≠ 6) ∧
      (∀ e, FindDuplicates u (headers :: data) = .error e →
        ∃ line, e = .wrongNumberOfFields line) ∧
      ∀ results, FindDuplicates u (headers :: data) = .ok results →
        (∀ row ∈ data, row.length = 6) ∧
        results.length = data.length * (data.length - 1) / 2 ∧
        results = (indexPairs data.length).map (fun p =>
          pairResult u (dataRow (headers :: data) p.1) (dataRow (headers :: data) p.2)) := by
  rcases FindDuplicates_six u headers data hh with ⟨hall, hok⟩ | ⟨hex, line, herr⟩
  · refine ⟨⟨?_, ?_⟩, ?_, ?_⟩
    · rintro ⟨e, he⟩
      rw [hok] at he
      cases he
    · rintro ⟨row, hmem, hne⟩
      exact absurd (hall row hmem) hne
    · intro e he
      rw [hok] at he
      cases he
    · intro results hres
      rw [hok] at hres
      injection hres with hres
      subst hres
      exact ⟨hall, by rw [List.length_map, length_indexPairs], rfl⟩
  · refine ⟨⟨fun _ => hex, fun _ => ⟨_, herr⟩⟩, ?_, ?_⟩
    · intro e he
      rw [herr] at he
      injection he with he
      exact ⟨line, he.symm⟩
    · intro results hres
      rw [herr] at hres
      cases hres

theorem shape_failure_all_or_nothing_witness :
    (shortRowData.headD []).length = 6 ∧
      (((∃ e, FindDuplicates basicUnicode (shortRowData.headD [] :: shortRowData.tail) =
            .error e) ↔ ∃ row ∈ shortRowData.tail, row.length ≠ 6) ∧
        (∀ e, FindDuplicates basicUnicode (shortRowData.headD [] :: shortRowData.tail) =
            .error e → ∃ line, e = .wrongNumberOfFields line) ∧
        ∀ results, FindDuplicates basicUnicode (shortRowData.headD [] :: shortRowData.tail) =
            .ok results →
          (∀ row ∈ shortRowData.tail, row.length = 6) ∧
          results.length = shortRowData.tail.length * (shortRowData.tail.length - 1) / 2 ∧
          results = (indexPairs shortRowData.tail.length).map (fun p =>
            pairResult basicUnicode
              (dataRow (shortRowData.headD [] :: shortRowData.tail) p.1)
              (dataRow (shortRowData.headD [] :: shortRowData.tail) p.2))) :=
  ⟨by decide, shape_failure_all_or_nothing basicUnicode _ _ (by decide)⟩

/-- The shape checks of the pair loop are never what a run fails with. -/
theorem FindDuplicates_ne_invalidRecord (u : Unicode) (file : List (List GoString))
    (row found : Nat) : FindDuplicates u file ≠ .error (.invalidRecord row found) := by
  intro h
  cases file with
  | nil => simp [FindDuplicates, ReadAll, readLoop, checkAndScore] at h
  | cons headers data =>
    by_cases hh : headers.length = 6
    · rcases FindDuplicates_six u headers data hh with ⟨_, hok⟩ | ⟨_, line, herr⟩
      · rw [hok] at h; cases h
      · rw [herr] at h; cases h
    · unfold FindDuplicates at h
      cases hr : ReadAll (headers :: data) with
      | error e =>
        rw [hr] at h
        obtain ⟨l, rfl⟩ := ReadAll_error_kind _ e hr
        cases h
      | ok records =>
        rw [hr] at h
        have := ReadAll_eq _ _ hr
        subst this
        simp [checkAndScore, hh] at h

/-- C12 at the rows of `mockCSVData` with the second contact cut to five fields: the
run fails in the reader with `record on line 3: wrong number of fields`, which
names neither the position 2 of the row among the data rows nor its 5 fields;
the shape check of the loop, which reports them, is reached by no input. -/
theorem offending_position_not_reported :
    FindDuplicates basicUnicode shortRowData = .error (.wrongNumberOfFields 3) ∧
      checkAndScore basicUnicode shortRowData = .error (.invalidRecord 2 5) ∧
      ∀ (u : Unicode) (file : List (List GoString)) (row found : Nat),
        FindDuplicates u file ≠ .error (.invalidRecord row found) :=
  ⟨FindDuplicates_read_error basicUnicode (shortRowData.headD []) [dataRow shortRowData 0]
      (dataRow shortRowData 1) [dataRow shortRowData 2] (by decide) (by decide) (by decide),
    checkAndScore_shape_error basicUnicode (shortRowData.headD []) [dataRow shortRowData 0]
      (dataRow shortRowData 1) [dataRow shortRowData 2] (by decide) (by decide) (by decide),
    FindDuplicates_ne_invalidRecord⟩

theorem lev_nil_left (t : List Char) : lev [] t = t.length := rfl

theorem lev_nil_right (s : List Char) : lev s [] = s.length := by
  cases s <;> rfl

theorem lev_cons_cons (a : Char) (s : List Char) (b : Char) (t : List Char) :
    lev (a :: s) (b :: t) =
      min (lev s (b :: t) + 1) (min (lev (a :: s) t + 1) (lev s t + if a = b then 0 else 1)) :=
  rfl

theorem lev_eq_levenshtein (s t : List Char) :
    lev s t = levenshtein Levenshtein.defaultCost s t := by
  induction s generalizing t with
  | nil =>
    induction t with
    | nil => simp [lev_nil_left]
    | cons b t ih =>
      rw [lev_nil_left] at ih ⊢
      simp [← ih, Nat.add_comm]
  | cons a s ihs =>
    induction t with
    | nil =>
      rw [lev_nil_right, levenshtein_cons_nil, ← ihs, lev_nil_right]
      simp [Nat.add_comm]
    | cons b t iht =>
      rw [lev_cons_cons, levenshtein_cons_cons, ← ihs, ← ihs, ← iht]
      simp [Nat.add_comm]

theorem lev_self (s : List Char) : lev s s = 0 := by
  induction s with
  | nil => rfl
  | cons a s ih => rw [lev_cons_cons, ih]; simp

theorem lev_comm (s t : List Char) : lev s t = lev t s := by
  induction s generalizing t with
  | nil => rw [lev_nil_left, lev_nil_right]
  | cons a s ihs =>
    induction t with
    | nil => rw [lev_nil_left, lev_nil_right]
    | cons b t iht =>
      rw [lev_cons_cons, lev_cons_cons, ihs (b :: t), ihs t, iht]
      have hc : (if a = b then 0 else 1) = (if b = a then 0 else 1 : Nat) := by
        by_cases h : a = b
        · subst h; rfl
        · rw [if_neg h, if_neg (Ne.symm h)]
      rw [hc]
      omega

theorem min9 (cab cxy B1 B2 B3 C1 C2 C3 D1 D2 D3 : Nat) :
    min (min (B1 + 1) (min (C1 + 1) (D1 + cab)) + 1)
        (min (min (B2 + 1) (min (C2 + 1) (D2 + cab)) + 1)
          (min (B3 + 1) (min (C3 + 1) (D3 + cab)) + cxy)) =
      min (min (B1 + 1) (min (B2 + 1) (B3 + cxy)) + 1)
        (min (min (C1 + 1) (min (C2 + 1) (C3 + cxy)) + 1)
          (min (D1 + 1) (min (D2 + 1) (D3 + cxy)) + cab)) := by
  apply le_antisymm
  · simp only [← Nat.add_min_add_right, le_min_iff, min_le_iff]
    refine ⟨⟨?_, ?_, ?_⟩, ⟨?_, ?_, ?_⟩, ⟨?_, ?_, ?_⟩⟩ <;> omega
  · simp only [← Nat.add_min_add_right, le_min_iff, min_le_iff]
    refine ⟨⟨?_, ?_, ?_⟩, ⟨?_, ?_, ?_⟩, ⟨?_, ?_, ?_⟩⟩ <;> omega

/-- The standard recursion read at the last characters. -/
theorem lev_snoc_snoc (a b : Char) :
    ∀ s t : List Char, lev (s ++ [a]) (t ++ [b]) =
      min (lev s (t ++ [b]) + 1)
        (min (lev (s ++ [a]) t + 1) (lev s t + if a = b then 0 else 1)) := by
  intro s
  induction s with
  | nil =>
    intro t
    induction t with
    | nil => rfl
    | cons y t iht =>
      simp only [List.nil_append, List.cons_append, lev_cons_cons, lev_nil_left,
        List.length_cons, List.length_append, List.length_nil] at iht ⊢
      generalize (if a = b then 0 else 1 : Nat) = cab at *
      generalize (if a = y then 0 else 1 : Nat) = cay at *
      generalize lev [a] (t ++ [b]) = A at *
      generalize lev [a] t = B at *
      omega
  | cons x s ihs =>
    intro t
    induction t with
    | nil =>
      have h1 := ihs []
      simp only [List.nil_append, List.cons_append, lev_cons_cons, lev_nil_right,
        List.length_cons, List.length_append, List.length_nil] at h1 ⊢
      generalize (if a = b then 0 else 1 : Nat) = cab at *
      generalize (if x = b then 0 else 1 : Nat) = cxb at *
      generalize lev (s ++ [a]) [b] = A at *
      generalize lev s [b] = B at *
      omega
    | cons y t iht =>
      have h1 := ihs (y :: t)
      have h2 := ihs t
      simp only [List.cons_append, lev_cons_cons] at h1 h2 iht ⊢
      generalize (if a = b then 0 else 1 : Nat) = cab at *
      generalize (if x = y then 0 else 1 : Nat) = cxy at *
      rw [h1, h2, iht]
      exact min9 _ _ _ _ _ _ _ _ _ _ _

theorem runeLen_ascii {c : Char} (h : c.toNat < 0x80) : runeLen c = 1 := by
  simp [runeLen, h]

theorem len_ascii (s : GoString) (h : ∀ c ∈ s, c.toNat < 0x80) : len s = s.length := by
  induction s with
  | nil => rfl
  | cons c s ih =>
    rw [len, runeLen_ascii (h c (by simp)), ih (fun d hd => h d (by simp [hd]))]
    simp [Nat.add_comm]

theorem length_rowOf (p s2 : List Char) : (rowOf p s2).length = s2.length + 1 := by
  simp [rowOf]

theorem rowOf_getElem? (p s2 : List Char) (idx : Nat) (h : idx ≤ s2.length) :
    (rowOf p s2)[idx]? = some (lev p (s2.take idx)) := by
  have h1 : idx < s2.length + 1 := by omega
  simp [rowOf, List.getElem?_map, List.getElem?_range h1]

theorem rowOf_nil (s2 : List Char) : rowOf [] s2 = List.range (s2.length + 1) := by
  apply List.ext_getElem?
  intro idx
  by_cases h : idx ≤ s2.length
  · rw [rowOf_getElem? _ _ _ h, List.getElem?_range (by omega), lev_nil_left]
    simp [h]
  · rw [List.getElem?_eq_none (by rw [length_rowOf]; omega),
      List.getElem?_eq_none (by simp; omega)]

theorem innerLoop_ascii (c1 : Char) (p s2 : List Char) (h2 : ∀ c ∈ s2, c.toNat < 0x80) :
    ∀ (rest pre : GoString) (currRow : List Nat), s2 = pre ++ rest →
      currRow.length = s2.length + 1 →
      (∀ idx, idx ≤ pre.length → currRow[idx]? = some (lev (p ++ [c1]) (s2.take idx))) →
      innerLoop c1 (rowOf p s2) rest pre.length currRow = .ok (rowOf (p ++ [c1]) s2) := by
  intro rest
  induction rest with
  | nil =>
    intro pre currRow hs hlen hcells
    rw [innerLoop]
    congr 1
    apply List.ext_getElem?
    intro idx
    have hpre : pre.length = s2.length := by rw [hs]; simp
    by_cases h : idx ≤ s2.length
    · rw [hcells idx (by omega), rowOf_getElem? _ _ _ h]
    · rw [List.getElem?_eq_none (by omega),
        List.getElem?_eq_none (by rw [length_rowOf]; omega)]
  | cons c2 rest ih =>
    intro pre currRow hs hlen hcells
    have hl : s2.length = pre.length + rest.length + 1 := by rw [hs]; simp; omega
    have hc2 : runeLen c2 = 1 := runeLen_ascii (h2 c2 (by rw [hs]; simp))
    have ht1 : s2.take pre.length = pre := by
      rw [hs]
      exact List.take_left' rfl
    have ht2 : s2.take (pre.length + 1) = pre ++ [c2] := by
      rw [hs, show pre ++ c2 :: rest = (pre ++ [c2]) ++ rest by simp]
      exact List.take_left' (by simp)
    have htake : s2.take (pre.length + 1) = s2.take pre.length ++ [c2] := by
      rw [ht1, ht2]
    have hj4 : pre.length + 1 < currRow.length := by omega
    have hp1 : (rowOf p s2)[pre.length + 1]? = some (lev p (s2.take (pre.length + 1))) :=
      rowOf_getElem? _ _ _ (by omega)
    have hp0 : (rowOf p s2)[pre.length]? = some (lev p (s2.take pre.length)) :=
      rowOf_getElem? _ _ _ (by omega)
    simp only [innerLoop, hcells pre.length (le_refl _), hp1, hp0, if_pos hj4, hc2]
    have := ih (pre ++ [c2]) (currRow.set (pre.length + 1)
      (min (lev (p ++ [c1]) (s2.take pre.length) + 1)
        (min (lev p (s2.take (pre.length + 1)) + 1)
          (lev p (s2.take pre.length) + if c1 ≠ c2 then 1 else 0))))
      (by rw [hs]; simp) (by rw [List.length_set]; exact hlen) ?_
    · simpa using this
    · intro idx hidx
      by_cases he : pre.length + 1 = idx
      · subst he
        rw [List.getElem?_set_self hj4, htake, lev_snoc_snoc]
        congr 1
        have hcost : (if c1 ≠ c2 then 1 else 0 : Nat) = if c1 = c2 then 0 else 1 := by
          by_cases h : c1 = c2 <;> simp [h]
        rw [hcost]
        generalize (if c1 = c2 then 0 else 1 : Nat) = cost
        omega
      · rw [List.getElem?_set_ne he]
        apply hcells
        simp at hidx
        omega

theorem outerLoop_ascii (s2 : GoString) (h2 : ∀ c ∈ s2, c.toNat < 0x80) :
    ∀ (rest p : GoString), (∀ c ∈ rest, c.toNat < 0x80) →
      outerLoop s2 rest p.length (rowOf p s2) = .ok (rowOf (p ++ rest) s2) := by
  intro rest
  induction rest with
  | nil => intro p _; simp [outerLoop]
  | cons c1 rest ih =>
    intro p h1
    have hc1 : runeLen c1 = 1 := runeLen_ascii (h1 c1 (by simp))
    rw [outerLoop, len_ascii s2 h2]
    have hin := innerLoop_ascii c1 p s2 h2 s2 []
      ((List.replicate (s2.length + 1) 0).set 0 (p.length + 1)) rfl (by simp) (by
        intro idx hidx
        have h0 : idx = 0 := by simpa using hidx
        subst h0
        rw [List.getElem?_set_self (by simp)]
        simp [lev_nil_right])
    simp only [List.length_nil] at hin
    rw [hin]
    simp only [hc1]
    have := ih (p ++ [c1]) (fun d hd => h1 d (by simp [hd]))
    simpa using this

/-- On ASCII text the two-row table computes the standard recursion. -/
theorem levenshteinDistance_eq_lev (s1 s2 : GoString) (h1 : ∀ c ∈ s1, c.toNat < 0x80)
    (h2 : ∀ c ∈ s2, c.toNat < 0x80) : levenshteinDistance s1 s2 = .ok (lev s1 s2) := by
  unfold levenshteinDistance
  split_ifs with e1 e2 e3
  · rw [e1, lev_self]
  · rw [(len_eq_zero_iff s1).1 e2, lev_nil_left, len_ascii s2 h2]
  · rw [(len_eq_zero_iff s2).1 e3, lev_nil_right, len_ascii s1 h1]
  · have := outerLoop_ascii s2 h2 s1 [] h1
    simp only [List.length_nil, List.nil_append, rowOf_nil] at this
    rw [len_ascii s2 h2, this]
    simp only [rowOf_getElem? _ _ _ (le_refl _), List.take_length]

/-- C19. On strings of ASCII characters the two-row table of `levenshteinDistance`
returns the Levenshtein distance of the standard recursion (`lev`, which is
Mathlib's `levenshtein` with unit costs); hence it is symmetric and at most the
longer length. -/
theorem levenshteinDistance_ascii (s1 s2 : GoString) (h1 : ∀ c ∈ s1, c.toNat < 0x80)
    (h2 : ∀ c ∈ s2, c.toNat < 0x80) :
    levenshteinDistance s1 s2 = .ok (lev s1 s2) ∧
      levenshteinDistance s2 s1 = levenshteinDistance s1 s2 ∧
      lev s1 s2 ≤ max (len s1) (len s2) ∧
      lev s1 s2 = levenshtein Levenshtein.defaultCost s1 s2 := by
  have e12 := levenshteinDistance_eq_lev s1 s2 h1 h2
  have e21 := levenshteinDistance_eq_lev s2 s1 h2 h1
  refine ⟨e12, ?_, ?_, lev_eq_levenshtein s1 s2⟩
  · rw [e12, e21, lev_comm]
  · obtain ⟨d, hd, hle⟩ := levenshteinDistance_ok s1 s2
    rw [e12] at hd
    injection hd with hd
    rw [hd]
    exact hle

theorem levenshteinDistance_ascii_witness :
    (∀ c ∈ "kitten".toList, c.toNat < 0x80) ∧ (∀ c ∈ "sitting".toList, c.toNat < 0x80) ∧
      (levenshteinDistance "kitten".toList "sitting".toList =
          .ok (lev "kitten".toList "sitting".toList) ∧
        levenshteinDistance "sitting".toList "kitten".toList =
          levenshteinDistance "kitten".toList "sitting".toList ∧
        lev "kitten".toList "sitting".toList ≤
          max (len "kitten".toList) (len "sitting".toList) ∧
        lev "kitten".toList "sitting".toList =
          levenshtein Levenshtein.defaultCost "kitten".toList "sitting".toList) :=
  ⟨by decide, by decide, levenshteinDistance_ascii _ _ (by decide) (by decide)⟩

theorem innerLoop_stale (c1 : Char) (prevRow : List Nat) (L : Nat)
    (hprev : prevRow.length = L + 1) :
    ∀ (rest : GoString) (j : Nat) (currRow : List Nat),
      currRow.length = L + 1 → j + len rest = L →
      (∀ c ∈ rest.getLast?, 2 ≤ runeLen c) → currRow[L]? = some 0 →
      ∃ row, innerLoop c1 prevRow rest j currRow = .ok row ∧ row.length = L + 1 ∧
        row[L]? = some 0 := by
  intro rest
  induction rest with
  | nil =>
    intro j currRow hlen _ _ h0
    exact ⟨currRow, rfl, hlen, h0⟩
  | cons c2 rest ih =>
    intro j currRow hlen hj hlast h0
    have hpos := runeLen_pos c2
    simp only [len] at hj
    have hj1 : j < currRow.length := by omega
    have hj2 : j + 1 < prevRow.length := by omega
    have hj3 : j < prevRow.length := by omega
    have hj4 : j + 1 < currRow.length := by omega
    have hlt : j + 1 ≠ L := by
      cases rest with
      | nil =>
        have := hlast c2 (by simp)
        simp only [len] at hj
        omega
      | cons c3 rest =>
        have := runeLen_pos c3
        simp only [len] at hj
        omega
    simp only [innerLoop, List.getElem?_eq_getElem hj1, List.getElem?_eq_getElem hj2,
      List.getElem?_eq_getElem hj3, if_pos hj4]
    apply ih
    · simp [hlen]
    · omega
    · intro c hc
      cases rest with
      | nil => simp at hc
      | cons c3 rest => exact hlast c (by simpa using hc)
    · rw [List.getElem?_set_ne hlt]
      exact h0

theorem outerLoop_stale (s2 : GoString) (hlast : ∀ c ∈ s2.getLast?, 2 ≤ runeLen c)
    (h2 : s2 ≠ []) :
    ∀ (rest : GoString) (i : Nat) (prevRow : List Nat), prevRow.length = len s2 + 1 →
      rest ≠ [] →
      ∃ row, outerLoop s2 rest i prevRow = .ok row ∧ row.length = len s2 + 1 ∧
        row[len s2]? = some 0 := by
  have hL : 0 < len s2 := Nat.pos_of_ne_zero fun h => h2 ((len_eq_zero_iff s2).1 h)
  intro rest
  induction rest with
  | nil => intro _ _ _ h; exact absurd rfl h
  | cons c1 rest ih =>
    intro i prevRow hlen _
    obtain ⟨currRow, hrun, hclen, hc0⟩ := innerLoop_stale c1 prevRow (len s2) hlen s2 0
      ((List.replicate (len s2 + 1) 0).set 0 (i + 1)) (by simp) (by omega) hlast (by
        rw [List.getElem?_set_ne (by omega)]
        simp)
    simp only [outerLoop, hrun]
    cases rest with
    | nil => exact ⟨currRow, rfl, hclen, hc0⟩
    | cons c rest => exact ih _ currRow hclen (by simp)

/-- The defect behind `levenshteinDistance` on multi-byte text, in general: when `s2`
ends in a character of two or more bytes, the cell returned is never written,
and every non-empty `s1` other than `s2` is at distance 0. -/
theorem levenshteinDistance_stale_cell (s1 s2 : GoString)
    (hlast : ∀ c ∈ s2.getLast?, 2 ≤ runeLen c) (h1 : s1 ≠ []) (h2 : s2 ≠ [])
    (hne : s1 ≠ s2) : levenshteinDistance s1 s2 = .ok 0 := by
  have e1 : len s1 ≠ 0 := fun h => h1 ((len_eq_zero_iff s1).1 h)
  have e2 : len s2 ≠ 0 := fun h => h2 ((len_eq_zero_iff s2).1 h)
  obtain ⟨row, hrow, _, h0⟩ := outerLoop_stale s2 hlast h2 s1 0 (List.range (len s2 + 1))
    (by simp) h1
  simp only [levenshteinDistance, if_neg hne, if_neg e1, if_neg e2, hrow, h0]

/-- C16 at "john" and "rené": the Levenshtein distance is 4, `levenshteinDistance`
returns 0 (and 4 with the arguments exchanged). -/
theorem levenshteinDistance_not_edit_distance :
    levenshteinDistance "john".toList "rené".toList = .ok 0 ∧
      lev "john".toList "rené".toList = 4 ∧
      levenshtein Levenshtein.defaultCost "john".toList "rené".toList = 4 ∧
      levenshteinDistance "rené".toList "john".toList = .ok 4 := by
  refine ⟨by decide, by decide, ?_, by decide⟩
  rw [← lev_eq_levenshtein]
  decide

/-- C17 at "Muñoz" and "Munoz" with weight 5: the distance is 1 and the longer
normalised string has 5 code points, so the stated formula gives 4; the code
divides by the byte length 6 and returns 25/6. -/
theorem similarity_divides_by_byte_length :
    scoreField basicUnicode "Muñoz".toList "Munoz".toList 5 = .ok (25 / 6) ∧
      levenshteinDistance (normalize basicUnicode "Muñoz".toList)
        (normalize basicUnicode "Munoz".toList) = .ok 1 ∧
      max (normalize basicUnicode "Muñoz".toList).length
        (normalize basicUnicode "Munoz".toList).length = 5 ∧
      max (len (normalize basicUnicode "Muñoz".toList))
        (len (normalize basicUnicode "Munoz".toList)) = 6 ∧
      (5 : ℚ) * (1 - 1 / 5) ≠ 25 / 6 := by
  refine ⟨?_, by decide, by decide, by decide, by norm_num⟩
  rw [scoreField_eq basicUnicode _ _ "muñoz".toList "munoz".toList 5 1 6 (by decide)
    (by decide) (by decide) (by decide) (by decide)]
  norm_num

/-- C20 at "Jose" and "José" with weight 5: the normalised forms differ, yet the
distance read from the row is 0 and `scoreField` returns the full weight. -/
theorem full_weight_without_match :
    normalize basicUnicode "Jose".toList ≠ normalize basicUnicode "José".toList ∧
      levenshteinDistance (normalize basicUnicode "Jose".toList)
        (normalize basicUnicode "José".toList) = .ok 0 ∧
      scoreField basicUnicode "Jose".toList "José".toList 5 = .ok 5 := by
  refine ⟨by decide, by decide, ?_⟩
  rw [scoreField_eq basicUnicode _ _ "jose".toList "josé".toList 5 0 5 (by decide)
    (by decide) (by decide) (by decide) (by decide)]
  norm_num

/-! ## The output rows -/

theorem length_utf8EncodeRune (c : Char) : (utf8EncodeRune c).length = runeLen c := by
  unfold utf8EncodeRune runeLen
  split_ifs <;> rfl

theorem length_utf8 (s : GoString) : (utf8 s).length = len s := by
  induction s with
  | nil => rfl
  | cons c s ih =>
    simp only [utf8, List.flatMap_cons, List.length_append, len] at ih ⊢
    rw [ih, length_utf8EncodeRune]

theorem splitAux_noSep : ∀ (x part : Bytes), hasSep x = false → splitAux x part = [part ++ x] := by
  intro x
  induction x with
  | nil => intro part _; simp [splitAux]
  | cons b x ih =>
    intro part h
    cases x with
    | nil => simp [splitAux]
    | cons c x =>
      simp only [hasSep, Bool.or_eq_false_iff, Bool.and_eq_false_imp, beq_iff_eq] at h
      have hne : ¬ (b = 44 ∧ c = 32) := fun hbc => by simpa [hbc.2] using h.1 hbc.1
      rw [splitAux, if_neg hne, ih _ h.2]
      simp

theorem splitAux_sep : ∀ (x rest part : Bytes), hasSep x = false →
    splitAux (x ++ 44 :: 32 :: rest) part = (part ++ x) :: splitAux rest [] := by
  intro x
  induction x with
  | nil => intro rest part _; simp [splitAux]
  | cons b x ih =>
    intro rest part h
    cases x with
    | nil =>
      have := ih rest (part ++ [b]) rfl
      simp only [List.nil_append] at this
      simp [splitAux, this]
    | cons c x =>
      simp only [hasSep, Bool.or_eq_false_iff, Bool.and_eq_false_imp, beq_iff_eq] at h
      have hne : ¬ (b = 44 ∧ c = 32) := fun hbc => by simpa [hbc.2] using h.1 hbc.1
      have := ih rest (part ++ [b]) h.2
      simp only [List.cons_append] at this ⊢
      rw [splitAux, if_neg hne, this]
      simp

theorem hasSep_append : ∀ (x y : Bytes), hasSep x = false → hasSep y = false →
    x.getLast? ≠ some 44 → hasSep (x ++ y) = false := by
  intro x
  induction x with
  | nil => intro y _ hy _; simpa using hy
  | cons b x ih =>
    intro y hx hy hlast
    cases x with
    | nil =>
      have hb : b ≠ 44 := by simpa using hlast
      cases y with
      | nil => rfl
      | cons c y =>
        simp only [List.cons_append, List.nil_append, hasSep, Bool.or_eq_false_iff]
        exact ⟨by simp [hb], hy⟩
    | cons c x =>
      simp only [hasSep, Bool.or_eq_false_iff] at hx
      have := ih y hx.2 hy (by simpa using hlast)
      simp only [List.cons_append, hasSep, Bool.or_eq_false_iff] at this ⊢
      exact ⟨hx.1, this⟩

theorem sliceFrom_append (x y : Bytes) : sliceFrom x.length (x ++ y) = .ok y := by
  simp [sliceFrom]

/-- For ids and a score without the separator, formatting a result and taking it
apart again gives back the three values, every index and slice in bounds. -/
theorem outputRow_Sprintf (contactID sourceContactID percentage : Bytes)
    (h1 : hasSep contactID = false) (h2 : hasSep sourceContactID = false)
    (h3 : hasSep percentage = false) :
    outputRow (Sprintf contactID sourceContactID percentage) =
      .ok [contactID, sourceContactID, percentage] := by
  have e2 : utf8 ", Source ContactID: ".toList = 44 :: 32 :: utf8 "Source ContactID: ".toList := by
    decide
  have e3 : utf8 ", Match Score: ".toList = 44 :: 32 :: utf8 "Match Score: ".toList := by
    decide
  have g1 : hasSep (utf8 "ContactID: ".toList ++ contactID) = false :=
    hasSep_append _ _ (by decide) h1 (by decide)
  have g2 : hasSep (utf8 "Source ContactID: ".toList ++ sourceContactID) = false :=
    hasSep_append _ _ (by decide) h2 (by decide)
  have g3 : hasSep (utf8 "Match Score: ".toList ++ percentage) = false :=
    hasSep_append _ _ (by decide) h3 (by decide)
  have hsplit : Split (Sprintf contactID sourceContactID percentage) =
      [utf8 "ContactID: ".toList ++ contactID,
        utf8 "Source ContactID: ".toList ++ sourceContactID,
        utf8 "Match Score: ".toList ++ percentage] := by
    have hform : Sprintf contactID sourceContactID percentage =
        (utf8 "ContactID: ".toList ++ contactID) ++ 44 :: 32 ::
          ((utf8 "Source ContactID: ".toList ++ sourceContactID) ++ 44 :: 32 ::
            (utf8 "Match Score: ".toList ++ percentage)) := by
      simp only [Sprintf, e2, e3, List.append_assoc, List.cons_append]
    rw [Split, hform, splitAux_sep _ _ _ g1, splitAux_sep _ _ _ g2, splitAux_noSep _ _ g3]
    simp
  simp only [outputRow, hsplit, index, List.getElem?_cons_zero, List.getElem?_cons_succ,
    bind, Except.bind, sliceFrom_append, pure, Except.pure]

theorem writeRows_Sprintf (rows : List (Bytes × Bytes × Bytes))
    (h : ∀ r ∈ rows, hasSep r.1 = false ∧ hasSep r.2.1 = false ∧ hasSep r.2.2 = false) :
    writeRows (rows.map fun r => Sprintf r.1 r.2.1 r.2.2) =
      .ok (rows.map fun r => [r.1, r.2.1, r.2.2]) := by
  induction rows with
  | nil => rfl
  | cons r rows ih =>
    obtain ⟨h1, h2, h3⟩ := h r (by simp)
    simp only [List.map_cons, writeRows, outputRow_Sprintf _ _ _ h1 h2 h3,
      ih (fun x hx => h x (by simp [hx])), bind, Except.bind, pure, Except.pure]

theorem writeResults_resultLine (format2f : ℚ → Bytes) (result : List MatchResult)
    (hf : ∀ q, hasSep (format2f q) = false)
    (h : ∀ r ∈ result, hasSep (utf8 r.contactID) = false ∧
      hasSep (utf8 r.sourceContactID) = false) :
    writeResults (result.map (resultLine format2f)) =
      .ok ([utf8 "ContactID".toList, utf8 "Source ContactID".toList,
          utf8 "Match Score".toList] ::
        result.map fun r => [utf8 r.contactID, utf8 r.sourceContactID,
          format2f r.percentage]) := by
  have := writeRows_Sprintf
    (result.map fun r => (utf8 r.contactID, utf8 r.sourceContactID, format2f r.percentage))
    (by
      intro x hx
      obtain ⟨r, hr, rfl⟩ := List.mem_map.1 hx
      exact ⟨(h r hr).1, (h r hr).2, hf _⟩)
  simp only [List.map_map, Function.comp_def] at this
  have hline : result.map (resultLine format2f) = result.map fun x =>
      Sprintf (utf8 x.contactID) (utf8 x.sourceContactID) (format2f x.percentage) := rfl
  simp only [writeResults, hline, this, bind, Except.bind, pure, Except.pure]

/-- C14 at the id `1001, A`: the run returns one result, and writing it panics with
slice bounds out of range, because `strings.Split` cuts inside the id and
`parts[1]` is the one byte `A`; at the id `7, Source ContactID: 8` the row is
written without a panic but holds `8` as second id and `tID: 1002` as score. -/
theorem output_row_lost_on_separator (format2f : ℚ → Bytes) :
    (∃ results, FindDuplicates basicUnicode commaIdData = .ok results ∧
      (results.map fun r => (r.contactID, r.sourceContactID)) =
        [("1001, A".toList, "1002".toList)] ∧
      writeResults (results.map (resultLine format2f)) = .error .sliceBoundsOutOfRange) ∧
    outputRow (Sprintf (utf8 "7, Source ContactID: 8".toList) (utf8 "1002".toList)
        (utf8 "83.61".toList)) =
      .ok [utf8 "7".toList, utf8 "8".toList, utf8 "tID: 1002".toList] := by
  refine ⟨⟨_, FindDuplicates_ok basicUnicode commaIdData ⟨⟨_, _, rfl, rfl⟩, by decide⟩,
    ?_, ?_⟩, by decide⟩
  · have hp : indexPairs (commaIdData.length - 1) = [(0, 1)] := by decide
    rw [hp]
    rfl
  · have hp : indexPairs (commaIdData.length - 1) = [(0, 1)] := by decide
    rw [hp]
    have hsplit : ∀ score : Bytes,
        Split (Sprintf (utf8 "1001, A".toList) (utf8 "1002".toList) score) =
          utf8 "ContactID: 1001".toList :: utf8 "A".toList ::
            splitAux (utf8 "Source ContactID: 1002, Match Score: ".toList ++ score) [] := by
      intro score
      have hform : Sprintf (utf8 "1001, A".toList) (utf8 "1002".toList) score =
          utf8 "ContactID: 1001".toList ++ 44 :: 32 :: (utf8 "A".toList ++ 44 :: 32 ::
            (utf8 "Source ContactID: 1002, Match Score: ".toList ++ score)) := by
        simp only [Sprintf]
        rw [show utf8 "ContactID: ".toList ++ utf8 "1001, A".toList ++
            utf8 ", Source ContactID: ".toList ++ utf8 "1002".toList ++
            utf8 ", Match Score: ".toList =
          utf8 "ContactID: 1001".toList ++ 44 :: 32 :: (utf8 "A".toList ++ 44 :: 32 ::
            utf8 "Source ContactID: 1002, Match Score: ".toList) from by decide]
        simp
      rw [Split, hform, splitAux_sep _ _ _ (by decide), splitAux_sep _ _ _ (by decide)]
      simp
    simp only [List.map_cons, List.map_nil, writeResults, writeRows, outputRow, resultLine]
    rw [show (pairResult basicUnicode (dataRow commaIdData 0) (dataRow commaIdData 1)).contactID
        = "1001, A".toList from rfl,
      show (pairResult basicUnicode (dataRow commaIdData 0)
        (dataRow commaIdData 1)).sourceContactID = "1002".toList from rfl, hsplit]
    simp only [index, List.getElem?_cons_zero, List.getElem?_cons_succ, bind, Except.bind]
    rw [show sliceFrom (utf8 "ContactID: ".toList).length (utf8 "ContactID: 1001".toList) =
        .ok (utf8 "1001".toList) from by decide,
      show sliceFrom (utf8 "Source ContactID: ".toList).length (utf8 "A".toList) =
        .error .sliceBoundsOutOfRange from by decide]

end Deduper
